import Mathlib

/-!
Verification of the declarative convergence engine (reconciler runtime).

The development shallowly embeds the Go sources:
* SyncReconciler (Validate / Reconcile / SetupWithManager / sync / finalize),
* ChildSetReconciler (Validate / Reconcile / knownChildren /
  composeChildReconcilers / childReconcilerFor / reflectStatus) together with
  ChildSetResult,
* the Status condition accessors, and, where the repository code is not part
  of the provided sources (Sequence, WithFinalizer, AggregateResults, the
  per-child ChildReconciler error filtering, and the ConditionSet /
  ConditionManager implementation), models written from the specification,
  each marked by a doc comment starting with "Modelled from the spec:".

Go `error` values are embedded as the inductive `RError`; a Go `nil` error is
`Option.none`.  Calling a nil Go function value panics; that outcome is made
explicit through the `Outcome` type.
-/

/-- Errors observed by the reconcilers.  `store reason s` is an API status
error carrying a status reason (`apierrors.ReasonForError`); `quiet inner`
is an error wrapping the `ErrQuiet` sentinel (so `errors.Is(err, ErrQuiet)`
holds); `onlyReconcileChildStatus` is the `OnlyReconcileChildStatus`
sentinel; `join a b` is `errors.Join(a, b)` of two non-nil errors.  (Go's
`errors.Join` with a single non-nil argument wraps it in a one-element join;
since `errors.Is` cannot distinguish the wrapper from the plain error, the
embedding returns the plain error in that case, see `errJoin`.) -/
inductive RError where
  | msg (s : String)
  | store (reason : String) (s : String)
  | quiet (inner : RError)
  | onlyReconcileChildStatus
  | join (a b : RError)
deriving DecidableEq, Repr

/-- The `OnlyReconcileChildStatus` sentinel error. -/
def OnlyReconcileChildStatus : RError := RError.onlyReconcileChildStatus

/-- Embedding of `errors.Is(e, ErrQuiet)`: true when the error wraps the
quiet sentinel. -/
def RError.isQuiet : RError → Bool
  | .quiet _ => true
  | .join a b => a.isQuiet || b.isQuiet
  | _ => false

/-- Embedding of `errors.Is(e, OnlyReconcileChildStatus)`. -/
def RError.isOnlyStatus : RError → Bool
  | .onlyReconcileChildStatus => true
  | .join a b => a.isOnlyStatus || b.isOnlyStatus
  | .quiet inner => inner.isOnlyStatus
  | _ => false

/-- Embedding of `apierrors.ReasonForError`: the status reason of an API
status error, `StatusReasonUnknown` (the empty-equivalent `"Unknown"`) for
every other error. -/
def RError.reason : RError → String
  | .store r _ => r
  | _ => "Unknown"

/-- Whether the error tree contains `t` (the observable content of an
`errors.Is` / `errors.Join` chain). -/
def RError.containsErr : RError → RError → Bool
  | .join a b, t =>
    if RError.join a b = t then true else a.containsErr t || b.containsErr t
  | .quiet i, t => if RError.quiet i = t then true else i.containsErr t
  | e, t => if e = t then true else false

/-- Embedding of `errors.Join(a, b)`: nil when both are nil, otherwise the
non-nil error(s). -/
def errJoin : Option RError → Option RError → Option RError
  | none, none => none
  | some a, none => some a
  | none, some b => some b
  | some a, some b => some (RError.join a b)

/-- Whether the optional error contains `t`. -/
def optErrContains : Option RError → RError → Bool
  | none, _ => false
  | some e, t => e.containsErr t

/-- Outcome of running a piece of Go code that may call a nil function
value: either a value or a nil-dereference panic. -/
inductive Outcome (α : Type) where
  | ok (a : α)
  | nilPanic
deriving Repr

/-- `reconcile.Result`: a requeue flag and a requeue delay (duration in
nanoseconds, 0 meaning unset). -/
structure Result where
  requeue : Bool := false
  requeueAfter : Nat := 0
deriving DecidableEq, Repr, Inhabited

/-- Modelled from the spec: `AggregateResults` is not part of the provided
sources; per the data model, aggregation of two Results takes the logical OR
of `requeue` and the minimum non-zero `requeueAfter`. -/
def AggregateResults (a b : Result) : Result :=
  { requeue := a.requeue || b.requeue
    requeueAfter :=
      if a.requeueAfter = 0 then b.requeueAfter
      else if b.requeueAfter = 0 then a.requeueAfter
      else min a.requeueAfter b.requeueAfter }

/-- A reconciled resource: deletion marker (`GetDeletionTimestamp`),
finalizer tokens and an abstract payload. -/
structure Resource (α : Type) where
  deletionTimestamp : Option Nat := none
  finalizers : List String := []
  payload : α

/-- `SyncReconciler`: the user-supplied callbacks, each `Option` so a Go nil
function is representable.  `setup`, when present, is modelled by the error
value the `Setup` callback returns when invoked. -/
structure SyncReconciler (α : Type) where
  name : String := ""
  setup : Option (Option RError) := none
  syncDuringFinalization : Bool := false
  sync : Option (Resource α → Option RError) := none
  syncWithResult : Option (Resource α → Result × Option RError) := none
  finalize : Option (Resource α → Option RError) := none
  finalizeWithResult : Option (Resource α → Result × Option RError) := none

/-- `SyncReconciler.Validate`: requires exactly one of Sync /
SyncWithResult, and at most one of Finalize / FinalizeWithResult. -/
def SyncReconciler.Validate (r : SyncReconciler α) : Option RError :=
  if r.sync.isNone && r.syncWithResult.isNone then
    some (.msg "SyncReconciler must implement Sync or SyncWithResult")
  else if r.sync.isSome && r.syncWithResult.isSome then
    some (.msg "SyncReconciler may not implement both Sync and SyncWithResult")
  else if r.finalize.isSome && r.finalizeWithResult.isSome then
    some (.msg "SyncReconciler may not implement both Finalize and FinalizeWithResult")
  else
    none

/-- `SyncReconciler.SetupWithManager`: returns nil when `Setup` is nil,
otherwise validates and then runs `Setup`. -/
def SyncReconciler.SetupWithManager (r : SyncReconciler α) : Option RError :=
  match r.setup with
  | none => none
  | some setupResult =>
    match r.Validate with
    | some e => some e
    | none => setupResult

/-- `SyncReconciler.sync`: runs `Sync` when present, otherwise calls
`SyncWithResult` — a nil `SyncWithResult` is a nil function call (panic). -/
def SyncReconciler.syncStep (r : SyncReconciler α) (resource : Resource α) :
    Outcome (Result × Option RError) :=
  match r.sync with
  | some f => .ok ({}, f resource)
  | none =>
    match r.syncWithResult with
    | some f => .ok (f resource)
    | none => .nilPanic

/-- `SyncReconciler.finalize`: runs `Finalize` when present, else
`FinalizeWithResult` when present, else returns an empty Result and nil. -/
def SyncReconciler.finalizeStep (r : SyncReconciler α) (resource : Resource α) :
    Result × Option RError :=
  match r.finalize with
  | some f => ({}, f resource)
  | none =>
    match r.finalizeWithResult with
    | some f => f resource
    | none => ({}, none)

/-- Output of one `SyncReconciler.Reconcile` pass: the aggregated Result,
the returned error, the error log lines emitted, and the phases
("sync" / "finalize") whose callback dispatcher was entered, in order. -/
structure SyncOutput where
  result : Result
  err : Option RError
  logged : List String
  phases : List String
deriving Repr

/-- `SyncReconciler.Reconcile`: sync when live or SyncDuringFinalization
(abort on error, logging unless the error is quiet), then finalize when
pending deletion (same error semantics), aggregating both Results. -/
def SyncReconciler.Reconcile (r : SyncReconciler α) (resource : Resource α) :
    Outcome SyncOutput :=
  let afterSync : Outcome SyncOutput :=
    if resource.deletionTimestamp.isNone || r.syncDuringFinalization then
      match r.syncStep resource with
      | .nilPanic => .nilPanic
      | .ok (syncResult, err) =>
        let result := AggregateResults {} syncResult
        match err with
        | some e =>
          .ok { result := result, err := some e
                logged := if e.isQuiet then [] else ["unable to sync"]
                phases := ["sync"] }
        | none => .ok { result := result, err := none, logged := [], phases := ["sync"] }
    else
      .ok { result := {}, err := none, logged := [], phases := [] }
  match afterSync with
  | .nilPanic => .nilPanic
  | .ok o =>
    match o.err with
    | some e => .ok { o with err := some e }
    | none =>
      if resource.deletionTimestamp.isSome then
        let (finalizeResult, err) := r.finalizeStep resource
        let result := AggregateResults o.result finalizeResult
        match err with
        | some e =>
          .ok { result := result, err := some e
                logged := o.logged ++ if e.isQuiet then [] else ["unable to finalize"]
                phases := o.phases ++ ["finalize"] }
        | none =>
          .ok { result := result, err := none, logged := o.logged
                phases := o.phases ++ ["finalize"] }
      else
        .ok o

/-- One entry of a `ChildSetResult`: the identity, the child value observed
by that identity's reconciliation (none for a Go nil child), and the error
reflected for it. -/
structure ChildSetPartialResult (CT : Type) where
  id : String
  child : Option CT
  err : Option RError
deriving Repr

/-- `ChildSetResult`: the ordered per-identity results of one pass. -/
structure ChildSetResult (CT : Type) where
  children : List (ChildSetPartialResult CT) := []
deriving Repr

/-- The per-identity child reconciler built by
`ChildSetReconciler.childReconcilerFor`: the identity used as its name, the
captured desired child (none for a Go zero value, meaning delete) and the
captured desired-children error passed through as its `DesiredChild`
error. -/
structure ChildRec (CT : Type) where
  id : String
  desired : Option CT
  desiredErr : Option RError
deriving Repr

/-- The composed unit returned by `composeChildReconcilers`: either the bare
`Sequence` of per-identity reconcilers or that sequence wrapped in a
`WithFinalizer` guard. -/
inductive ComposedUnit (CT : Type) where
  | seq (crs : List (ChildRec CT))
  | withFinalizer (finalizer : String) (crs : List (ChildRec CT))
deriving Repr

/-- The per-identity reconcilers of a composed unit, in execution order. -/
def ComposedUnit.crs : ComposedUnit CT → List (ChildRec CT)
  | .seq crs => crs
  | .withFinalizer _ crs => crs

/-- `ChildSetReconciler` configuration.  Function-valued fields are `Option`
so a Go nil callback is representable; `childObjectManager` and
`listOptions` record only the presence of those collaborators (their
behavior is abstracted by the oracles fed to `Reconcile`);
`reflectChildrenStatusOnParent` records the presence of the error-less
status-reflection variant (its body only mutates the parent status, so its
error contribution is nil). -/
structure ChildSetReconciler (α CT : Type) where
  name : String := ""
  finalizer : String := ""
  skipOwnerReference : Bool := false
  desiredChildren : Option (Resource α → List CT × Option RError) := none
  childObjectManager : Bool := false
  reflectChildrenStatusOnParent : Bool := false
  reflectChildrenStatusOnParentWithError :
    Option (Resource α → ChildSetResult CT → Option RError) := none
  reflectedChildErrorReasons : Option (List String) := none
  listOptions : Bool := false
  ourChild : Option (Resource α → CT → Bool) := none
  identifyChild : Option (CT → String) := none

/-- Modelled from the spec: the default `ReflectedChildErrorReasons`
(already-exists, forbidden, invalid) are applied by the per-child
`ChildReconciler`, whose implementation is not part of the provided
sources. -/
def defaultReflectedChildErrorReasons : List String :=
  ["AlreadyExists", "Forbidden", "Invalid"]

/-- The effective reflected-reason list: the configured list, or the default
when none is configured. -/
def effectiveReflectedReasons : Option (List String) → List String
  | none => defaultReflectedChildErrorReasons
  | some rs => rs

/-- The effective status-reflection callback, as wired by
`ChildSetReconciler.init`: `ReflectChildrenStatusOnParentWithError` when
set, else a wrapper around `ReflectChildrenStatusOnParent` returning nil,
else absent (a nil callback). -/
def ChildSetReconciler.effectiveReflect (r : ChildSetReconciler α CT) :
    Option (Resource α → ChildSetResult CT → Option RError) :=
  match r.reflectChildrenStatusOnParentWithError with
  | some f => some f
  | none =>
    if r.reflectChildrenStatusOnParent then some (fun _ _ => none) else none

/-- `ChildSetReconciler.Validate`.  It first applies the implicit default (a
non-empty Finalizer forces SkipOwnerReference), mirroring the in-place
mutation by returning the updated reconciler along with the error. -/
def ChildSetReconciler.Validate (r : ChildSetReconciler α CT) :
    ChildSetReconciler α CT × Option RError :=
  let r := if r.finalizer != "" then { r with skipOwnerReference := true } else r
  (r,
    if r.desiredChildren.isNone then
      some (.msg "ChildSetReconciler must implement DesiredChildren")
    else if !r.reflectChildrenStatusOnParent &&
        r.reflectChildrenStatusOnParentWithError.isNone then
      some (.msg "ChildSetReconciler must implement ReflectChildrenStatusOnParent or ReflectChildrenStatusOnParentWithError")
    else if r.ourChild.isNone && r.skipOwnerReference then
      some (.msg "ChildSetReconciler must implement OurChild since owner references are not used")
    else if !r.listOptions && r.skipOwnerReference then
      some (.msg "ChildSetReconciler must implement ListOptions since owner references are not used")
    else if r.identifyChild.isNone then
      some (.msg "ChildSetReconciler must implement IdentifyChild")
    else if !r.childObjectManager then
      some (.msg "ChildSetReconciler must implement ChildObjectManager")
    else none)

/-- `ChildSetReconciler.knownChildren`: the outcome of listing candidate
children (the store List call is the `listed` oracle) filtered through the
void reconciler's ourChild test, which for the void reconciler reduces to
the configured `OurChild` predicate (all children match when it is nil). -/
def ChildSetReconciler.knownChildren (r : ChildSetReconciler α CT)
    (resource : Resource α) (listed : Except RError (List CT)) :
    Except RError (List CT) :=
  match listed with
  | .error e => .error e
  | .ok items =>
    .ok (items.filter fun c =>
      match r.ourChild with
      | some oc => oc resource c
      | none => true)

/-- The first loop of `composeChildReconcilers`: assign each desired child
its identity, rejecting empty and duplicate identities, and accumulate the
identity set (`childIDs`, insertion ordered) and the `desiredChildByID`
index. -/
def buildDesiredIndex (idf : CT → String) :
    List CT → List String → List (String × CT) →
    Except RError (List String × List (String × CT))
  | [], ids, byId => .ok (ids, byId)
  | c :: rest, ids, byId =>
    let id := idf c
    if id = "" then .error (.msg "desired child id may not be empty")
    else if ids.contains id then .error (.msg "duplicate child id found")
    else buildDesiredIndex idf rest (ids ++ [id]) (byId ++ [(id, c)])

/-- `sets.String.Insert` over a duplicate-free insertion-ordered list. -/
def setInsert (ids : List String) (x : String) : List String :=
  if ids.contains x then ids else ids ++ [x]

/-- The second loop of `composeChildReconcilers`: insert every known child's
identity into the identity set. -/
def insertAll (ids : List String) (xs : List String) : List String :=
  xs.foldl setInsert ids

/-- The lexicographic order on identities used by `sets.String.List`
(Go sorts strings bytewise; the embedding compares the character-code
lists). -/
def idLe (a b : String) : Prop :=
  a.data.map Char.toNat ≤ b.data.map Char.toNat

instance : DecidableRel idLe :=
  fun a b => inferInstanceAs (Decidable (a.data.map Char.toNat ≤ b.data.map Char.toNat))

instance : IsTrans String idLe :=
  ⟨fun _ _ _ h1 h2 => le_trans h1 h2⟩

instance : IsTotal String idLe :=
  ⟨fun _ _ => le_total _ _⟩

/-- `sets.String.List`: the members in sorted order. -/
def setSortedList (ids : List String) : List String :=
  List.insertionSort idLe ids

/-- Go map lookup `desiredChildByID[id]`: the entry when present, the zero
value (none) otherwise. -/
def lookupAssoc : List (String × CT) → String → Option CT
  | [], _ => none
  | (k, v) :: rest, id => if k = id then some v else lookupAssoc rest id

/-- `ChildSetReconciler.composeChildReconcilers`: compute the desired
children (aborting on a non-sentinel error), validate and index their
identities, union with the known identities, and build one per-identity
child reconciler per identity in ascending sorted order, wrapping the
sequence in a `WithFinalizer` guard when a Finalizer is configured.  A nil
`DesiredChildren` or `IdentifyChild` is a nil function call (panic). -/
def ChildSetReconciler.composeChildReconcilers (r : ChildSetReconciler α CT)
    (resource : Resource α) (knownChildren : List CT) :
    Outcome (Except RError (ComposedUnit CT)) :=
  match r.desiredChildren, r.identifyChild with
  | some desiredChildrenFn, some idf =>
    let (desiredChildren, desiredChildrenErr) := desiredChildrenFn resource
    let build : Option RError → Except RError (ComposedUnit CT) := fun derr =>
      match buildDesiredIndex idf desiredChildren [] [] with
      | .error e => .error e
      | .ok (ids, byId) =>
        let childIDs := insertAll ids (knownChildren.map idf)
        let sequence := (setSortedList childIDs).map fun id =>
          ChildRec.mk id (lookupAssoc byId id) derr
        if r.finalizer != "" then .ok (.withFinalizer r.finalizer sequence)
        else .ok (.seq sequence)
    match desiredChildrenErr with
    | some e => if e.isOnlyStatus then .ok (build (some e)) else .ok (.error e)
    | none => .ok (build none)
  | _, _ => .nilPanic

/-- Request-scoped state of one pass: the stashed `ChildSetResult` entries
(appended by the `ReflectChildStatusOnParent` closure of
`childReconcilerFor`) and the ordered trace of identities whose per-child
reconciler was executed. -/
structure PassState (CT : Type) where
  stash : List (ChildSetPartialResult CT) := []
  trace : List String := []
deriving Repr

/-- The stash append performed by the `ReflectChildStatusOnParent` closure
built in `childReconcilerFor`. -/
def appendEntry (s : PassState CT) (id : String) (c : Option CT)
    (e : Option RError) : PassState CT :=
  { s with stash := s.stash ++ [ChildSetPartialResult.mk id c e] }

/-- Modelled from the spec: execution of one per-identity `ChildReconciler`
(its implementation is not part of the provided sources).  With the
`OnlyReconcileChildStatus` sentinel as desired-child error it skips
create/update/delete and reflects the currently known child; any other
desired-child error is returned; otherwise the store convergence (the
`converge` oracle: create if absent, update if drifted, delete if
undesired) runs, and a resulting store error is reflected into the child's
result entry when its reason is in the reflected-reason list, or returned
for retry otherwise; a successful convergence is reflected with a nil
error. -/
def childStep (reasons : List String)
    (converge : String → Option CT → Option CT × Option RError)
    (actual : String → Option CT) (cr : ChildRec CT) (s : PassState CT) :
    (Result × Option RError) × PassState CT :=
  let s := { s with trace := s.trace ++ [cr.id] }
  match cr.desiredErr with
  | some e =>
    if e.isOnlyStatus then (({}, none), appendEntry s cr.id (actual cr.id) none)
    else (({}, some e), s)
  | none =>
    let (c, err) := converge cr.id cr.desired
    match err with
    | some e =>
      if reasons.contains e.reason then (({}, none), appendEntry s cr.id c (some e))
      else (({}, some e), s)
    | none => (({}, none), appendEntry s cr.id c none)

/-- Modelled from the spec: `Sequence` execution (its implementation is not
part of the provided sources): run each unit in order, accumulating Results
with `AggregateResults`; when a unit fails, stop and return the accumulated
Result with the error (fail-fast). -/
def sequenceRun (step : ChildRec CT → PassState CT → (Result × Option RError) × PassState CT) :
    List (ChildRec CT) → Result → PassState CT →
    (Result × Option RError) × PassState CT
  | [], acc, s => ((acc, none), s)
  | cr :: rest, acc, s =>
    let ((res, err), s1) := step cr s
    let acc1 := AggregateResults acc res
    match err with
    | some e => ((acc1, some e), s1)
    | none => sequenceRun step rest acc1 s1

/-- Modelled from the spec: the `WithFinalizer` guard (its implementation is
not part of the provided sources): on a live resource, add the token (and
persist, modelled as succeeding) before running the inner unit; on a
resource pending deletion, run the inner unit and clear the token only when
it completed without error.  The second component is the parent's resulting
finalizer-token set. -/
def withFinalizerRun (f : String)
    (inner : PassState CT → (Result × Option RError) × PassState CT)
    (resource : Resource α) (s : PassState CT) :
    ((Result × Option RError) × PassState CT) × List String :=
  if resource.deletionTimestamp.isNone then
    (inner s,
      if resource.finalizers.contains f then resource.finalizers
      else resource.finalizers ++ [f])
  else
    let ((res, err), s1) := inner s
    (((res, err), s1),
      if err.isNone then resource.finalizers.filter (fun t => t ≠ f)
      else resource.finalizers)

/-- The currently known child for an identity: the per-identity reconciler
locates its actual child among the children of the pass (listing through the
same cache), keyed by the identification function. -/
def actualOf (idf : CT → String) (known : List CT) : String → Option CT :=
  fun id => known.find? fun c => idf c = id

/-- Execution of the composed unit produced by `composeChildReconcilers`. -/
def runComposed (reasons : List String) (idf : CT → String) (known : List CT)
    (converge : String → Option CT → Option CT × Option RError)
    (resource : Resource α) (unit : ComposedUnit CT) (s : PassState CT) :
    (Result × Option RError) × PassState CT :=
  match unit with
  | .seq crs => sequenceRun (childStep reasons converge (actualOf idf known)) crs {} s
  | .withFinalizer f crs =>
    (withFinalizerRun f
      (fun s0 => sequenceRun (childStep reasons converge (actualOf idf known)) crs {} s0)
      resource s).1

/-- Observable output of one `ChildSetReconciler.Reconcile` pass: the
Result, the returned error, the `ChildSetResult` handed to the
status-reflection callback (none when the pass aborted before reflection),
and the ordered trace of executed per-identity reconcilers. -/
structure ChildSetOutput (CT : Type) where
  result : Result
  err : Option RError
  reflected : Option (ChildSetResult CT)
  trace : List String
deriving Repr

/-- `ChildSetReconciler.Reconcile`: list and filter the known children
(returning a store error directly), compose the per-identity reconcilers
(returning a composition error directly), execute the composed unit, then
always invoke the status-reflection callback with the stashed result and
return `errors.Join` of the convergence error and the reflection error.
The store List outcome and the per-child store convergence are oracles. -/
def ChildSetReconciler.Reconcile (r : ChildSetReconciler α CT)
    (resource : Resource α) (listed : Except RError (List CT))
    (converge : String → Option CT → Option CT × Option RError) :
    Outcome (ChildSetOutput CT) :=
  match r.knownChildren resource listed with
  | .error e => .ok { result := {}, err := some e, reflected := none, trace := [] }
  | .ok known =>
    match r.composeChildReconcilers resource known with
    | .nilPanic => .nilPanic
    | .ok (.error e) =>
      .ok { result := {}, err := some e, reflected := none, trace := [] }
    | .ok (.ok unit) =>
      match r.identifyChild, r.effectiveReflect with
      | some idf, some refl =>
        let reasons := effectiveReflectedReasons r.reflectedChildErrorReasons
        let ((result, reconcileErr), st) :=
          runComposed reasons idf known converge resource unit {}
        let reflectErr := refl resource (ChildSetResult.mk st.stash)
        .ok { result := result, err := errJoin reconcileErr reflectErr
              reflected := some (ChildSetResult.mk st.stash), trace := st.trace }
      | _, _ => .nilPanic

/-- Condition status: True, False or Unknown. -/
inductive ConditionStatus where
  | isTrue
  | isFalse
  | isUnknown
deriving DecidableEq, Repr

/-- A status condition: type, status, reason/message metadata and the
last-transition timestamp (times are abstract clock values). -/
structure Condition where
  type : String := ""
  status : ConditionStatus := .isUnknown
  reason : String := ""
  message : String := ""
  lastTransitionTime : Nat := 0
deriving DecidableEq, Repr

/-- The conventional aggregate condition type. -/
def ConditionReady : String := "Ready"

/-- `ConditionSet`: the aggregate condition's type and the declared list of
dependent condition types. -/
structure ConditionSet where
  happy : String
  dependents : List String
deriving DecidableEq, Repr

/-- `NewLivingConditionSet`: a ConditionSet aggregating into `Ready`. -/
def NewLivingConditionSet (dependents : List String) : ConditionSet :=
  ConditionSet.mk ConditionReady dependents

/-- `Status.GetCondition`: the first condition of the given type. -/
def GetCondition (conds : List Condition) (t : String) : Option Condition :=
  conds.find? fun c => c.type = t

/-- The status of a condition type, Unknown when the condition is absent. -/
def statusOf (conds : List Condition) (t : String) : ConditionStatus :=
  match GetCondition conds t with
  | some c => c.status
  | none => .isUnknown

/-- Modelled from the spec: writing one condition (the ConditionManager
implementation is not part of the provided sources): replace the condition
of that type, or append it when absent; the last-transition timestamp takes
the current clock value only when the status actually changes. -/
def setCondition (conds : List Condition) (c : Condition) (now : Nat) :
    List Condition :=
  match GetCondition conds c.type with
  | none => conds ++ [{ c with lastTransitionTime := now }]
  | some old =>
    conds.map fun x =>
      if x.type = c.type then
        { c with lastTransitionTime :=
            if old.status = c.status then old.lastTransitionTime else now }
      else x

/-- Modelled from the spec: the aggregate status of the declared dependents:
False when some dependent is False, True when every dependent is True,
Unknown otherwise. -/
def dependentsStatus (cs : ConditionSet) (conds : List Condition) :
    ConditionStatus :=
  match cs.dependents.find? (fun d => statusOf conds d = ConditionStatus.isFalse) with
  | some _ => .isFalse
  | none =>
    if cs.dependents.all (fun d => statusOf conds d = ConditionStatus.isTrue) then
      .isTrue
    else .isUnknown

/-- Modelled from the spec: recompute the aggregate condition after a
mutation; a False aggregate propagates the first false dependent's reason
and message (first-false-wins by declared order). -/
def recomputeHappiness (cs : ConditionSet) (now : Nat) (conds : List Condition) :
    List Condition :=
  match cs.dependents.find? (fun d => statusOf conds d = ConditionStatus.isFalse) with
  | some d =>
    let dc := (GetCondition conds d).getD {}
    setCondition conds
      { type := cs.happy, status := .isFalse, reason := dc.reason
        message := dc.message } now
  | none =>
    if cs.dependents.all (fun d => statusOf conds d = ConditionStatus.isTrue) then
      setCondition conds { type := cs.happy, status := .isTrue } now
    else
      setCondition conds { type := cs.happy, status := .isUnknown } now

/-- Modelled from the spec: `MarkTrue`: set the dependent condition True with
the given reason and message, then recompute the aggregate. -/
def MarkTrue (cs : ConditionSet) (conds : List Condition) (t reason message : String)
    (now : Nat) : List Condition :=
  recomputeHappiness cs now
    (setCondition conds { type := t, status := .isTrue, reason := reason, message := message } now)

/-- Modelled from the spec: `MarkFalse`: set the dependent condition False
with the given reason and message, then recompute the aggregate. -/
def MarkFalse (cs : ConditionSet) (conds : List Condition) (t reason message : String)
    (now : Nat) : List Condition :=
  recomputeHappiness cs now
    (setCondition conds { type := t, status := .isFalse, reason := reason, message := message } now)

/-- Modelled from the spec: one step of `InitializeConditions`: set the
given condition type to Unknown unless it is already present. -/
def initStep (now : Nat) (acc : List Condition) (t : String) : List Condition :=
  match GetCondition acc t with
  | some _ => acc
  | none => setCondition acc { type := t, status := .isUnknown } now

/-- Modelled from the spec: `InitializeConditions`: set every declared
dependent and the aggregate to Unknown unless already present, never
overwriting existing values. -/
def InitializeConditions (cs : ConditionSet) (now : Nat) (conds : List Condition) :
    List Condition :=
  (cs.dependents ++ [cs.happy]).foldl (initStep now) conds

/-- Modelled from the spec: `IsHappy`: the aggregate condition's status is
True. -/
def IsHappy (cs : ConditionSet) (conds : List Condition) : Bool :=
  statusOf conds cs.happy = ConditionStatus.isTrue

/-- The ascending identity list of one pass: desired identities (in desired
order) unioned with the known identities, sorted. -/
def unionIds (idf : CT → String) (children known : List CT) : List String :=
  setSortedList (insertAll (children.map idf) (known.map idf))

/-- The execution of one composed pass, as performed inside
`ChildSetReconciler.Reconcile`. -/
def passRun (r : ChildSetReconciler α CT) (idf : CT → String) (known : List CT)
    (converge : String → Option CT → Option CT × Option RError)
    (unit : ComposedUnit CT) : (Result × Option RError) × PassState CT :=
  sequenceRun
    (childStep (effectiveReflectedReasons r.reflectedChildErrorReasons) converge
      (actualOf idf known))
    unit.crs {} {}

/-! Concrete fixtures used to instantiate the theorems at concrete inputs. -/

/-- A SyncReconciler whose Sync always succeeds. -/
def sampleSync : SyncReconciler Unit := { sync := some fun _ => none }

/-- A live resource with no finalizers. -/
def sampleLive : Resource Unit := { payload := () }

/-- A ChildSetReconciler desiring children "a" and "b" (identity is the
child itself). -/
def sampleCSR : ChildSetReconciler Unit String :=
  { desiredChildren := some fun _ => (["a", "b"], none)
    childObjectManager := true
    reflectChildrenStatusOnParentWithError := some fun _ _ => none
    identifyChild := some fun c => c }

/-- A store convergence oracle that always succeeds. -/
def sampleConvergeOk : String → Option String → Option String × Option RError :=
  fun i _ => (some i, none)

/-- A store convergence oracle failing child "a" with a transient
(non-reflected) reason. -/
def sampleConvergeAbort : String → Option String → Option String × Option RError :=
  fun i _ => (none, if i = "a" then some (RError.store "InternalError" "boom") else none)

/-- A store convergence oracle failing child "a" with the terminal reason
Invalid (reflected by default). -/
def sampleConvergeInvalid : String → Option String → Option String × Option RError :=
  fun i _ => (some i, if i = "a" then some (RError.store "Invalid" "bad") else none)

/-- A ChildSetReconciler whose desired-children policy signals status-only
reconciliation. -/
def sampleCSRSentinel : ChildSetReconciler Unit String :=
  { desiredChildren := some fun _ => ([], some RError.onlyReconcileChildStatus)
    childObjectManager := true
    reflectChildrenStatusOnParentWithError := some fun _ _ => none
    identifyChild := some fun c => c }

/-- A ChildSetReconciler whose desired-children policy returns a duplicate
identity. -/
def sampleCSRDup : ChildSetReconciler Unit String :=
  { desiredChildren := some fun _ => (["a", "a"], none)
    childObjectManager := true
    reflectChildrenStatusOnParentWithError := some fun _ _ => none
    identifyChild := some fun c => c }

/-- A fully configured ChildSetReconciler with a Finalizer. -/
def sampleCSRFull : ChildSetReconciler Unit String :=
  { finalizer := "example.com/child-set"
    desiredChildren := some fun _ => (["a"], none)
    childObjectManager := true
    reflectChildrenStatusOnParent := true
    listOptions := true
    ourChild := some fun _ _ => true
    identifyChild := some fun c => c }

/-- The ConditionSet of the repository's condition-manager test: dependents
Created and Configured aggregated into Ready. -/
def sampleConditionSet : ConditionSet :=
  NewLivingConditionSet ["Created", "Configured"]

/-! Helper lemmas about the identity-set machinery. -/

theorem mem_setInsert (ids : List String) (x y : String) :
    y ∈ setInsert ids x ↔ y ∈ ids ∨ y = x := by
  unfold setInsert
  by_cases h : x ∈ ids
  · simp only [h, if_true, List.elem_eq_mem, decide_eq_true_eq, if_pos]
    constructor
    · exact Or.inl
    · rintro (hy | rfl)
      · exact hy
      · exact h
  · simp [h, List.mem_append]

theorem nodup_setInsert (ids : List String) (x : String) (h : ids.Nodup) :
    (setInsert ids x).Nodup := by
  unfold setInsert
  by_cases hm : x ∈ ids
  · simpa [hm] using h
  · simp only [hm, if_false, List.elem_eq_mem, decide_eq_true_eq, if_neg, not_false_iff]
    refine List.Nodup.append h (List.nodup_singleton x) ?_
    intro a ha hb
    simp only [List.mem_singleton] at hb
    subst hb
    exact hm ha

theorem mem_insertAll (xs : List String) :
    ∀ (ids : List String) (y : String), y ∈ insertAll ids xs ↔ y ∈ ids ∨ y ∈ xs := by
  induction xs with
  | nil => intro ids y; simp [insertAll]
  | cons x rest ih =>
    intro ids y
    show y ∈ insertAll (setInsert ids x) rest ↔ _
    rw [ih, mem_setInsert]
    constructor
    · rintro ((hy | rfl) | hy)
      · exact Or.inl hy
      · exact Or.inr (List.mem_cons_self _ _)
      · exact Or.inr (List.mem_cons_of_mem _ hy)
    · rintro (hy | hy)
      · exact Or.inl (Or.inl hy)
      · rcases List.mem_cons.mp hy with rfl | hy
        · exact Or.inl (Or.inr rfl)
        · exact Or.inr hy

theorem nodup_insertAll (xs : List String) :
    ∀ ids : List String, ids.Nodup → (insertAll ids xs).Nodup := by
  induction xs with
  | nil => intro ids h; simpa [insertAll] using h
  | cons x rest ih =>
    intro ids h
    exact ih (setInsert ids x) (nodup_setInsert ids x h)

theorem mem_setSortedList (ids : List String) (y : String) :
    y ∈ setSortedList ids ↔ y ∈ ids := by
  unfold setSortedList
  exact (List.perm_insertionSort _ ids).mem_iff

theorem nodup_setSortedList (ids : List String) (h : ids.Nodup) :
    (setSortedList ids).Nodup := by
  unfold setSortedList
  exact ((List.perm_insertionSort _ ids).nodup_iff).mpr h

theorem sorted_setSortedList (ids : List String) :
    (setSortedList ids).Sorted idLe :=
  List.sorted_insertionSort _ ids

theorem buildDesiredIndex_ok (idf : CT → String) :
    ∀ (l : List CT) (ids : List String) (byId : List (String × CT))
      (ids2 : List String) (byId2 : List (String × CT)),
      ids.Nodup →
      buildDesiredIndex idf l ids byId = .ok (ids2, byId2) →
      ids2 = ids ++ l.map idf ∧ byId2 = byId ++ l.map (fun c => (idf c, c)) ∧
        (∀ c ∈ l, idf c ≠ "") ∧ ids2.Nodup := by
  intro l
  induction l with
  | nil =>
    intro ids byId ids2 byId2 hnd h
    simp only [buildDesiredIndex, Except.ok.injEq, Prod.mk.injEq] at h
    obtain ⟨rfl, rfl⟩ := h
    simp [hnd]
  | cons c rest ih =>
    intro ids byId ids2 byId2 hnd h
    simp only [buildDesiredIndex] at h
    by_cases he : idf c = ""
    · simp [he] at h
    · rw [if_neg he] at h
      by_cases hc : idf c ∈ ids
      · have hcb : ids.contains (idf c) = true := by simpa using hc
        rw [hcb] at h
        simp at h
      · have hcb : ids.contains (idf c) = false := by simpa using hc
        rw [hcb] at h
        simp only [Bool.false_eq_true, if_neg, not_false_iff] at h
        have hnd2 : (ids ++ [idf c]).Nodup := by
          refine List.Nodup.append hnd (List.nodup_singleton _) ?_
          intro a ha hb
          simp only [List.mem_singleton] at hb
          subst hb
          exact hc ha
        obtain ⟨h1, h2, h3, h4⟩ := ih (ids ++ [idf c]) (byId ++ [(idf c, c)]) ids2 byId2 hnd2 h
        refine ⟨?_, ?_, ?_, h4⟩
        · simpa [List.append_assoc] using h1
        · simpa [List.append_assoc] using h2
        · intro x hx
          rcases List.mem_cons.mp hx with rfl | hx
          · exact he
          · exact h3 x hx

theorem buildDesiredIndex_succeeds (idf : CT → String) :
    ∀ (l : List CT) (ids : List String) (byId : List (String × CT)),
      (∀ c ∈ l, idf c ≠ "") → (ids ++ l.map idf).Nodup →
      buildDesiredIndex idf l ids byId =
        .ok (ids ++ l.map idf, byId ++ l.map (fun c => (idf c, c))) := by
  intro l
  induction l with
  | nil => intro ids byId _ _; simp [buildDesiredIndex]
  | cons c rest ih =>
    intro ids byId hne hnd
    have he : idf c ≠ "" := hne c (List.mem_cons_self _ _)
    have hc : idf c ∉ ids := by
      intro hm
      have hd := List.disjoint_of_nodup_append hnd
      exact hd hm (List.mem_cons_self _ _)
    have hcb : ids.contains (idf c) = false := by simpa using hc
    simp only [buildDesiredIndex, if_neg he, hcb, Bool.false_eq_true, if_neg, not_false_iff]
    have hnd2 : ((ids ++ [idf c]) ++ rest.map idf).Nodup := by
      simpa [List.append_assoc] using hnd
    have hih := ih (ids ++ [idf c]) (byId ++ [(idf c, c)])
      (fun x hx => hne x (List.mem_cons_of_mem _ hx)) hnd2
    rw [hih]
    simp [List.append_assoc]

theorem childStep_trace (reasons : List String)
    (converge : String → Option CT → Option CT × Option RError)
    (actual : String → Option CT) (cr : ChildRec CT) (s : PassState CT) :
    ((childStep reasons converge actual cr s).2).trace = s.trace ++ [cr.id] := by
  obtain ⟨id, desired, desiredErr⟩ := cr
  rcases hcv : converge id desired with ⟨c, err⟩
  cases desiredErr with
  | some e =>
    by_cases h : e.isOnlyStatus = true <;> simp [childStep, h, appendEntry]
  | none =>
    cases err with
    | some e =>
      by_cases h : e.reason ∈ reasons <;> simp [childStep, hcv, h, appendEntry]
    | none => simp [childStep, hcv, appendEntry]

theorem childStep_stash (reasons : List String)
    (converge : String → Option CT → Option CT × Option RError)
    (actual : String → Option CT) (cr : ChildRec CT) (s : PassState CT) :
    ∃ t, ((childStep reasons converge actual cr s).2).stash = s.stash ++ t := by
  obtain ⟨id, desired, desiredErr⟩ := cr
  rcases hcv : converge id desired with ⟨c, err⟩
  cases desiredErr with
  | some e =>
    by_cases h : e.isOnlyStatus = true
    · refine ⟨[ChildSetPartialResult.mk id (actual id) none], ?_⟩
      simp [childStep, h, appendEntry]
    · refine ⟨[], ?_⟩
      simp [childStep, h]
  | none =>
    cases err with
    | some e =>
      by_cases h : e.reason ∈ reasons
      · refine ⟨[ChildSetPartialResult.mk id c (some e)], ?_⟩
        simp [childStep, hcv, h, appendEntry]
      · refine ⟨[], ?_⟩
        simp [childStep, hcv, h]
    | none =>
      refine ⟨[ChildSetPartialResult.mk id c none], ?_⟩
      simp [childStep, hcv, appendEntry]

theorem sequenceRun_trace
    (step : ChildRec CT → PassState CT → (Result × Option RError) × PassState CT)
    (hstep : ∀ cr s, ((step cr s).2).trace = s.trace ++ [cr.id]) :
    ∀ (l : List (ChildRec CT)) (acc : Result) (s : PassState CT),
      ∃ t u, ((sequenceRun step l acc s).2).trace = s.trace ++ t ∧
        t ++ u = l.map (fun cr => cr.id) ∧
        ((sequenceRun step l acc s).1.2 = none → t = l.map (fun cr => cr.id)) := by
  intro l
  induction l with
  | nil =>
    intro acc s
    exact ⟨[], [], by simp [sequenceRun], by simp, fun _ => rfl⟩
  | cons cr rest ih =>
    intro acc s
    rcases hs : step cr s with ⟨⟨res, err⟩, s1⟩
    have htr : s1.trace = s.trace ++ [cr.id] := by
      have := hstep cr s
      rw [hs] at this
      exact this
    cases err with
    | some e =>
      refine ⟨[cr.id], rest.map (fun cr => cr.id), ?_, by simp, ?_⟩
      · simp [sequenceRun, hs, htr]
      · intro hnone
        simp [sequenceRun, hs] at hnone
    | none =>
      obtain ⟨t, u, h1, h2, h3⟩ := ih (AggregateResults acc res) s1
      refine ⟨cr.id :: t, u, ?_, ?_, ?_⟩
      · simp only [sequenceRun, hs]
        rw [h1, htr]
        simp
      · simp [h2]
      · intro hnone
        simp only [sequenceRun, hs] at hnone
        rw [h3 hnone]
        simp

theorem sequenceRun_stash
    (step : ChildRec CT → PassState CT → (Result × Option RError) × PassState CT)
    (hstep : ∀ cr s, ∃ t, ((step cr s).2).stash = s.stash ++ t) :
    ∀ (l : List (ChildRec CT)) (acc : Result) (s : PassState CT),
      ∃ t, ((sequenceRun step l acc s).2).stash = s.stash ++ t := by
  intro l
  induction l with
  | nil => intro acc s; exact ⟨[], by simp [sequenceRun]⟩
  | cons cr rest ih =>
    intro acc s
    rcases hs : step cr s with ⟨⟨res, err⟩, s1⟩
    obtain ⟨t0, ht0⟩ := hstep cr s
    rw [hs] at ht0
    cases err with
    | some e =>
      refine ⟨t0, ?_⟩
      simp only [sequenceRun, hs]
      exact ht0
    | none =>
      obtain ⟨t1, ht1⟩ := ih (AggregateResults acc res) s1
      refine ⟨t0 ++ t1, ?_⟩
      simp only [sequenceRun, hs]
      rw [ht1, ht0, List.append_assoc]

theorem sequenceRun_append_ok
    (step : ChildRec CT → PassState CT → (Result × Option RError) × PassState CT) :
    ∀ (l1 l2 : List (ChildRec CT)) (acc : Result) (s : PassState CT)
      (acc1 : Result) (s1 : PassState CT),
      sequenceRun step l1 acc s = ((acc1, none), s1) →
      sequenceRun step (l1 ++ l2) acc s = sequenceRun step l2 acc1 s1 := by
  intro l1
  induction l1 with
  | nil =>
    intro l2 acc s acc1 s1 h
    simp only [sequenceRun, Prod.mk.injEq] at h
    obtain ⟨⟨rfl, -⟩, rfl⟩ := h
    simp
  | cons cr rest ih =>
    intro l2 acc s acc1 s1 h
    rcases hs : step cr s with ⟨⟨res, err⟩, s2⟩
    cases err with
    | some e =>
      simp only [sequenceRun, hs] at h
      simp at h
    | none =>
      simp only [sequenceRun, hs] at h
      simp only [List.cons_append, sequenceRun, hs]
      exact ih l2 (AggregateResults acc res) s2 acc1 s1 h

theorem sequenceRun_append_err
    (step : ChildRec CT → PassState CT → (Result × Option RError) × PassState CT) :
    ∀ (l1 l2 : List (ChildRec CT)) (acc : Result) (s : PassState CT)
      (acc1 : Result) (e : RError) (s1 : PassState CT),
      sequenceRun step l1 acc s = ((acc1, some e), s1) →
      sequenceRun step (l1 ++ l2) acc s = ((acc1, some e), s1) := by
  intro l1
  induction l1 with
  | nil =>
    intro l2 acc s acc1 e s1 h
    simp [sequenceRun] at h
  | cons cr rest ih =>
    intro l2 acc s acc1 e s1 h
    rcases hs : step cr s with ⟨⟨res, err⟩, s2⟩
    cases err with
    | some e2 =>
      simp only [sequenceRun, hs] at h
      simp only [List.cons_append, sequenceRun, hs]
      exact h
    | none =>
      simp only [sequenceRun, hs] at h
      simp only [List.cons_append, sequenceRun, hs]
      exact ih l2 (AggregateResults acc res) s2 acc1 e s1 h

theorem runComposed_eq (reasons : List String) (idf : CT → String) (known : List CT)
    (converge : String → Option CT → Option CT × Option RError)
    (resource : Resource α) (unit : ComposedUnit CT) (s : PassState CT) :
    runComposed reasons idf known converge resource unit s =
      sequenceRun (childStep reasons converge (actualOf idf known)) unit.crs {} s := by
  cases unit with
  | seq crs => rfl
  | withFinalizer f crs =>
    simp only [runComposed, withFinalizerRun, ComposedUnit.crs]
    by_cases hd : resource.deletionTimestamp.isNone = true
    · simp [hd]
    · rcases hr : sequenceRun (childStep reasons converge (actualOf idf known)) crs {} s
        with ⟨⟨res, err⟩, s1⟩
      simp [hd, hr]

theorem Reconcile_char (r : ChildSetReconciler α CT)
    (resource : Resource α) (listed : Except RError (List CT))
    (converge : String → Option CT → Option CT × Option RError)
    (known : List CT) (unit : ComposedUnit CT)
    (idf : CT → String) (refl : Resource α → ChildSetResult CT → Option RError)
    (hidf : r.identifyChild = some idf)
    (hrefl : r.effectiveReflect = some refl)
    (hknown : r.knownChildren resource listed = .ok known)
    (hcomp : r.composeChildReconcilers resource known = .ok (.ok unit)) :
    r.Reconcile resource listed converge =
      .ok { result := (passRun r idf known converge unit).1.1
            err := errJoin (passRun r idf known converge unit).1.2
              (refl resource (ChildSetResult.mk (passRun r idf known converge unit).2.stash))
            reflected := some (ChildSetResult.mk (passRun r idf known converge unit).2.stash)
            trace := (passRun r idf known converge unit).2.trace } := by
  rcases hpr : passRun r idf known converge unit with ⟨⟨res, rerr⟩, st⟩
  have hrc : runComposed (effectiveReflectedReasons r.reflectedChildErrorReasons)
      idf known converge resource unit {} = ((res, rerr), st) := by
    rw [runComposed_eq]
    exact hpr
  simp only [ChildSetReconciler.Reconcile, hknown, hcomp, hidf, hrefl, hrc]

theorem compose_ok_char (r : ChildSetReconciler α CT) (resource : Resource α)
    (known : List CT) (dc : Resource α → List CT × Option RError) (idf : CT → String)
    (children : List CT) (derr : Option RError)
    (hdc : r.desiredChildren = some dc) (hidf : r.identifyChild = some idf)
    (hres : dc resource = (children, derr))
    (hsent : ∀ e, derr = some e → e.isOnlyStatus = true)
    (hne : ∀ c ∈ children, idf c ≠ "") (hnd : (children.map idf).Nodup) :
    ∃ unit, r.composeChildReconcilers resource known = .ok (.ok unit) ∧
      unit.crs = (unionIds idf children known).map
        (fun id => ChildRec.mk id
          (lookupAssoc (children.map (fun c => (idf c, c))) id) derr) ∧
      ((r.finalizer = "" ∧ unit = ComposedUnit.seq unit.crs) ∨
        (r.finalizer ≠ "" ∧ unit = ComposedUnit.withFinalizer r.finalizer unit.crs)) := by
  have hbuild := buildDesiredIndex_succeeds idf children [] [] hne (by simpa using hnd)
  simp only [List.nil_append] at hbuild
  have hmain : ∀ d : Option RError,
      (match buildDesiredIndex idf children [] [] with
        | .error e => Except.error e
        | .ok (ids, byId) =>
          let childIDs := insertAll ids (known.map idf)
          let sequence := (setSortedList childIDs).map fun id =>
            ChildRec.mk id (lookupAssoc byId id) d
          if r.finalizer != "" then Except.ok (ComposedUnit.withFinalizer r.finalizer sequence)
          else Except.ok (ComposedUnit.seq sequence)) =
      (if r.finalizer != "" then
        Except.ok (ComposedUnit.withFinalizer r.finalizer
          ((unionIds idf children known).map fun id =>
            ChildRec.mk id (lookupAssoc (children.map (fun c => (idf c, c))) id) d))
      else
        Except.ok (ComposedUnit.seq
          ((unionIds idf children known).map fun id =>
            ChildRec.mk id (lookupAssoc (children.map (fun c => (idf c, c))) id) d)) : Except RError (ComposedUnit CT)) := by
    intro d
    rw [hbuild]
    rfl
  by_cases hf : r.finalizer = ""
  · have hfb : (r.finalizer != "") = false := by simp [hf]
    refine ⟨ComposedUnit.seq ((unionIds idf children known).map fun id =>
      ChildRec.mk id (lookupAssoc (children.map (fun c => (idf c, c))) id) derr),
      ?_, rfl, Or.inl ⟨hf, rfl⟩⟩
    cases derr with
    | none =>
      simp only [ChildSetReconciler.composeChildReconcilers, hdc, hidf, hres]
      rw [hmain none, hfb]
      simp
    | some e =>
      simp only [ChildSetReconciler.composeChildReconcilers, hdc, hidf, hres,
        hsent e rfl, if_true]
      rw [hmain (some e), hfb]
      simp
  · have hfb : (r.finalizer != "") = true := by simpa using hf
    refine ⟨ComposedUnit.withFinalizer r.finalizer
      ((unionIds idf children known).map fun id =>
        ChildRec.mk id (lookupAssoc (children.map (fun c => (idf c, c))) id) derr),
      ?_, rfl, Or.inr ⟨hf, rfl⟩⟩
    cases derr with
    | none =>
      simp only [ChildSetReconciler.composeChildReconcilers, hdc, hidf, hres]
      rw [hmain none, hfb]
      simp
    | some e =>
      simp only [ChildSetReconciler.composeChildReconcilers, hdc, hidf, hres,
        hsent e rfl, if_true]
      rw [hmain (some e), hfb]
      simp

theorem buildDesiredIndex_fails (idf : CT → String) (l : List CT)
    (hbad : (∃ c ∈ l, idf c = "") ∨ ¬(l.map idf).Nodup) :
    ∃ e, buildDesiredIndex idf l [] [] = .error e := by
  cases hb : buildDesiredIndex idf l [] [] with
  | error e => exact ⟨e, rfl⟩
  | ok p =>
    exfalso
    obtain ⟨h1, h2, h3, h4⟩ :=
      buildDesiredIndex_ok idf l [] [] p.1 p.2 List.nodup_nil (by rw [hb])
    rcases hbad with ⟨c, hc, hce⟩ | hnd
    · exact (h3 c hc) hce
    · apply hnd
      rw [h1] at h4
      simpa using h4

theorem compose_fails (r : ChildSetReconciler α CT) (resource : Resource α)
    (known : List CT) (dc : Resource α → List CT × Option RError) (idf : CT → String)
    (children : List CT) (derr : Option RError)
    (hdc : r.desiredChildren = some dc) (hidf : r.identifyChild = some idf)
    (hres : dc resource = (children, derr))
    (hsent : ∀ e, derr = some e → e.isOnlyStatus = true)
    (hbad : (∃ c ∈ children, idf c = "") ∨ ¬(children.map idf).Nodup) :
    ∃ e, r.composeChildReconcilers resource known = .ok (.error e) := by
  obtain ⟨e, he⟩ := buildDesiredIndex_fails idf children hbad
  refine ⟨e, ?_⟩
  cases derr with
  | none =>
    simp only [ChildSetReconciler.composeChildReconcilers, hdc, hidf, hres]
    rw [he]
  | some e2 =>
    simp only [ChildSetReconciler.composeChildReconcilers, hdc, hidf, hres,
      hsent e2 rfl, if_true]
    rw [he]

theorem compose_aborts (r : ChildSetReconciler α CT) (resource : Resource α)
    (known : List CT) (dc : Resource α → List CT × Option RError) (idf : CT → String)
    (children : List CT) (e : RError)
    (hdc : r.desiredChildren = some dc) (hidf : r.identifyChild = some idf)
    (hres : dc resource = (children, some e))
    (hns : e.isOnlyStatus = false) :
    r.composeChildReconcilers resource known = .ok (.error e) := by
  simp only [ChildSetReconciler.composeChildReconcilers, hdc, hidf, hres, hns]
  simp

theorem Reconcile_compose_error (r : ChildSetReconciler α CT)
    (resource : Resource α) (listed : Except RError (List CT))
    (converge : String → Option CT → Option CT × Option RError)
    (known : List CT) (e : RError)
    (hknown : r.knownChildren resource listed = .ok known)
    (hcomp : r.composeChildReconcilers resource known = .ok (.error e)) :
    r.Reconcile resource listed converge =
      .ok { result := {}, err := some e, reflected := none, trace := [] } := by
  simp only [ChildSetReconciler.Reconcile, hknown, hcomp]

theorem SyncReconciler_Reconcile_ne_panic (r : SyncReconciler α) (resource : Resource α)
    (sres : Result) (serr : Option RError)
    (hv : r.syncStep resource = .ok (sres, serr)) :
    r.Reconcile resource ≠ Outcome.nilPanic := by
  unfold SyncReconciler.Reconcile
  rcases hfz : r.finalizeStep resource with ⟨fres, ferr⟩
  by_cases hc : (resource.deletionTimestamp.isNone || r.syncDuringFinalization) = true
  · simp only [hc, if_true, hv]
    cases serr with
    | some e => simp
    | none =>
      by_cases hd : resource.deletionTimestamp.isSome = true
      · simp only [hd, if_true, hfz]
        cases ferr <;> simp
      · simp [hd]
  · simp only [hc, if_false, Bool.false_eq_true]
    by_cases hd : resource.deletionTimestamp.isSome = true
    · simp only [hd, if_true, hfz]
      cases ferr <;> simp
    · simp [hd]

/-- C8: `SyncReconciler.Validate` returns an error if and only if neither
Sync nor SyncWithResult is supplied, both Sync and SyncWithResult are
supplied, or both Finalize and FinalizeWithResult are supplied; in every
other configuration it returns nil. -/
theorem C8_SyncReconciler_Validate_iff (r : SyncReconciler α) :
    (SyncReconciler.Validate r).isSome = true ↔
      ((r.sync.isNone && r.syncWithResult.isNone) = true ∨
        (r.sync.isSome && r.syncWithResult.isSome) = true ∨
        (r.finalize.isSome && r.finalizeWithResult.isSome) = true) := by
  cases hs : r.sync <;> cases hw : r.syncWithResult <;>
    cases hf : r.finalize <;> cases hg : r.finalizeWithResult <;>
      simp [SyncReconciler.Validate, hs, hw, hf, hg]

/-- C10: when Setup is nil, `SyncReconciler.SetupWithManager` returns nil
without validating, so a reconciler with neither Sync nor SyncWithResult
(which Validate would reject) reaches Reconcile, where on a live resource
the sync step calls the nil SyncWithResult function (panic); Reconcile never
panics for a configuration Validate accepts, so Reconcile is only safe after
a separate successful Validate. -/
theorem C10_SetupWithManager_skips_validate (r : SyncReconciler α)
    (resource : Resource α)
    (hsetup : r.setup = none) (hsync : r.sync = none)
    (hswr : r.syncWithResult = none)
    (hlive : resource.deletionTimestamp = none) :
    r.SetupWithManager = none ∧ (r.Validate).isSome = true ∧
      r.Reconcile resource = Outcome.nilPanic ∧
      (∀ r2 : SyncReconciler α, r2.Validate = none → ∀ res2 : Resource α,
        r2.Reconcile res2 ≠ Outcome.nilPanic) := by
  refine ⟨?_, ?_, ?_, ?_⟩
  · simp [SyncReconciler.SetupWithManager, hsetup]
  · simp [SyncReconciler.Validate, hsync, hswr]
  · simp [SyncReconciler.Reconcile, SyncReconciler.syncStep, hsync, hswr, hlive]
  · intro r2 hval res2
    cases hx : r2.sync with
    | some f =>
      exact SyncReconciler_Reconcile_ne_panic r2 res2 {} (f res2)
        (by simp [SyncReconciler.syncStep, hx])
    | none =>
      cases hy : r2.syncWithResult with
      | some f =>
        exact SyncReconciler_Reconcile_ne_panic r2 res2 (f res2).1 (f res2).2
          (by simp [SyncReconciler.syncStep, hx, hy])
      | none => simp [SyncReconciler.Validate, hx, hy] at hval

/-- C10 witness. -/
theorem C10_witness :
    (SyncReconciler.mk "" none false none none none none :
        SyncReconciler Unit).SetupWithManager = none ∧
      ((SyncReconciler.mk "" none false none none none none :
        SyncReconciler Unit).Validate).isSome = true ∧
      (SyncReconciler.mk "" none false none none none none :
          SyncReconciler Unit).Reconcile (Resource.mk none [] ()) = Outcome.nilPanic ∧
      (∀ r2 : SyncReconciler Unit, r2.Validate = none → ∀ res2 : Resource Unit,
        r2.Reconcile res2 ≠ Outcome.nilPanic) :=
  C10_SetupWithManager_skips_validate
    (SyncReconciler.mk "" none false none none none none)
    (Resource.mk none [] ()) rfl rfl rfl rfl

/-- C6: `SyncReconciler.Reconcile` runs sync exactly when the resource has
no deletion timestamp or SyncDuringFinalization is true; a sync error is
returned immediately, logged unless quiet; pending deletion runs finalize
after the sync phase succeeded, with the same error semantics, and the
Results of both phases aggregate into the returned Result. -/
theorem C6_SyncReconciler_Reconcile_flow (r : SyncReconciler α)
    (resource : Resource α) (sres : Result) (serr : Option RError)
    (hv : r.syncStep resource = .ok (sres, serr)) :
    ∃ o, r.Reconcile resource = .ok o ∧
      (("sync" ∈ o.phases) ↔
        (resource.deletionTimestamp = none ∨ r.syncDuringFinalization = true)) ∧
      (∀ e, (resource.deletionTimestamp = none ∨ r.syncDuringFinalization = true) →
        serr = some e →
        o.err = some e ∧ o.result = AggregateResults {} sres ∧
          o.phases = ["sync"] ∧
          o.logged = if e.isQuiet then [] else ["unable to sync"]) ∧
      (∀ t, resource.deletionTimestamp = some t →
        (r.syncDuringFinalization = true → serr = none →
          o.phases = ["sync", "finalize"] ∧
            o.result = AggregateResults (AggregateResults {} sres)
              (r.finalizeStep resource).1 ∧
            o.err = (r.finalizeStep resource).2 ∧
            o.logged = (match (r.finalizeStep resource).2 with
              | some fe => if fe.isQuiet then [] else ["unable to finalize"]
              | none => [])) ∧
        (r.syncDuringFinalization = false →
          o.phases = ["finalize"] ∧
            o.result = AggregateResults {} (r.finalizeStep resource).1 ∧
            o.err = (r.finalizeStep resource).2 ∧
            o.logged = (match (r.finalizeStep resource).2 with
              | some fe => if fe.isQuiet then [] else ["unable to finalize"]
              | none => []))) ∧
      (resource.deletionTimestamp = none → serr = none →
        o.err = none ∧ o.phases = ["sync"] ∧
          o.result = AggregateResults {} sres ∧ o.logged = []) := by
  rcases hfz : r.finalizeStep resource with ⟨fres, ferr⟩
  cases hdt : resource.deletionTimestamp with
  | none =>
    cases serr with
    | some e =>
      refine ⟨{ result := AggregateResults {} sres, err := some e
                logged := if e.isQuiet then [] else ["unable to sync"]
                phases := ["sync"] }, ?_, by simp, ?_, ?_, ?_⟩
      · simp [SyncReconciler.Reconcile, hv, hdt]
      · intro e2 _ he2
        cases he2
        exact ⟨rfl, rfl, rfl, rfl⟩
      · intro t ht
        cases ht
      · intro _ hnone
        cases hnone
    | none =>
      refine ⟨{ result := AggregateResults {} sres, err := none
                logged := [], phases := ["sync"] }, ?_, by simp, ?_, ?_, ?_⟩
      · simp [SyncReconciler.Reconcile, hv, hdt]
      · intro e2 _ he2
        cases he2
      · intro t ht
        cases ht
      · intro _ _
        exact ⟨rfl, rfl, rfl, rfl⟩
  | some t0 =>
    cases hsd : r.syncDuringFinalization with
    | false =>
      cases ferr with
      | some fe =>
        refine ⟨{ result := AggregateResults {} fres, err := some fe
                  logged := if fe.isQuiet then [] else ["unable to finalize"]
                  phases := ["finalize"] }, ?_, by simp, ?_, ?_, ?_⟩
        · simp [SyncReconciler.Reconcile, hdt, hsd, hfz]
        · intro e2 hor
          rcases hor with h | h
          · cases h
          · cases h
        · intro t ht
          constructor
          · intro h
            cases h
          · intro _
            exact ⟨rfl, rfl, rfl, rfl⟩
        · intro h
          cases h
      | none =>
        refine ⟨{ result := AggregateResults {} fres, err := none
                  logged := [], phases := ["finalize"] }, ?_, by simp, ?_, ?_, ?_⟩
        · simp [SyncReconciler.Reconcile, hdt, hsd, hfz]
        · intro e2 hor
          rcases hor with h | h
          · cases h
          · cases h
        · intro t ht
          constructor
          · intro h
            cases h
          · intro _
            exact ⟨rfl, rfl, rfl, rfl⟩
        · intro h
          cases h
    | true =>
      cases serr with
      | some e =>
        refine ⟨{ result := AggregateResults {} sres, err := some e
                  logged := if e.isQuiet then [] else ["unable to sync"]
                  phases := ["sync"] }, ?_, by simp, ?_, ?_, ?_⟩
        · simp [SyncReconciler.Reconcile, hv, hdt, hsd]
        · intro e2 _ he2
          cases he2
          exact ⟨rfl, rfl, rfl, rfl⟩
        · intro t ht
          constructor
          · intro _ hnone
            cases hnone
          · intro h
            cases h
        · intro h
          cases h
      | none =>
        cases ferr with
        | some fe =>
          refine ⟨{ result := AggregateResults (AggregateResults {} sres) fres
                    err := some fe
                    logged := if fe.isQuiet then [] else ["unable to finalize"]
                    phases := ["sync", "finalize"] }, ?_, by simp, ?_, ?_, ?_⟩
          · simp [SyncReconciler.Reconcile, hv, hdt, hsd, hfz]
          · intro e2 _ he2
            cases he2
          · intro t ht
            constructor
            · intro _ _
              exact ⟨rfl, rfl, rfl, rfl⟩
            · intro h
              cases h
          · intro h
            cases h
        | none =>
          refine ⟨{ result := AggregateResults (AggregateResults {} sres) fres
                    err := none, logged := [], phases := ["sync", "finalize"] },
            ?_, by simp, ?_, ?_, ?_⟩
          · simp [SyncReconciler.Reconcile, hv, hdt, hsd, hfz]
          · intro e2 _ he2
            cases he2
          · intro t ht
            constructor
            · intro _ _
              exact ⟨rfl, rfl, rfl, rfl⟩
            · intro h
              cases h
          · intro h
            cases h

theorem containsErr_self (e : RError) : e.containsErr e = true := by
  cases e <;> simp [RError.containsErr]

theorem errJoin_contains_left (a : RError) (b : Option RError) :
    optErrContains (errJoin (some a) b) a = true := by
  cases b with
  | none => simp [errJoin, optErrContains, containsErr_self]
  | some b0 =>
    simp only [errJoin, optErrContains, RError.containsErr]
    by_cases h : RError.join a b0 = a
    · simp [h]
    · simp [h, containsErr_self]

theorem errJoin_contains_right (a : Option RError) (b : RError) :
    optErrContains (errJoin a (some b)) b = true := by
  cases a with
  | none => simp [errJoin, optErrContains, containsErr_self]
  | some a0 =>
    simp only [errJoin, optErrContains, RError.containsErr]
    by_cases h : RError.join a0 b = b
    · simp [h]
    · simp [h, containsErr_self]

theorem childStep_reflected (reasons : List String)
    (converge : String → Option CT → Option CT × Option RError)
    (actual : String → Option CT) (cr : ChildRec CT) (s : PassState CT)
    (c : Option CT) (e : RError)
    (hderr : cr.desiredErr = none) (hconv : converge cr.id cr.desired = (c, some e))
    (hmem : e.reason ∈ reasons) :
    childStep reasons converge actual cr s =
      (({}, none),
        appendEntry { s with trace := s.trace ++ [cr.id] } cr.id c (some e)) := by
  have hmb : reasons.contains e.reason = true := by simpa using hmem
  simp only [childStep, hderr, hconv, hmb]
  simp

theorem childStep_transient (reasons : List String)
    (converge : String → Option CT → Option CT × Option RError)
    (actual : String → Option CT) (cr : ChildRec CT) (s : PassState CT)
    (c : Option CT) (e : RError)
    (hderr : cr.desiredErr = none) (hconv : converge cr.id cr.desired = (c, some e))
    (hmem : e.reason ∉ reasons) :
    childStep reasons converge actual cr s =
      (({}, some e), { s with trace := s.trace ++ [cr.id] }) := by
  have hmb : reasons.contains e.reason = false := by simpa using hmem
  simp only [childStep, hderr, hconv, hmb]
  simp

theorem sequenceRun_cons
    (step : ChildRec CT → PassState CT → (Result × Option RError) × PassState CT)
    (cr : ChildRec CT) (rest : List (ChildRec CT)) (acc : Result) (s : PassState CT) :
    sequenceRun step (cr :: rest) acc s =
      (match step cr s with
        | ((res, some e), s1) => ((AggregateResults acc res, some e), s1)
        | ((res, none), s1) => sequenceRun step rest (AggregateResults acc res) s1) := by
  rcases hs : step cr s with ⟨⟨res, err⟩, s1⟩
  cases err <;> simp [sequenceRun, hs]

/-- C3: whenever `ChildSetReconciler.Reconcile` reaches execution of the
composed per-child sequence, the status-reflection callback is invoked with
the stashed per-child results regardless of whether the composed reconcile
returned an error, and the returned error is `errors.Join` of the
convergence error and the reflection error, so neither shadows the other. -/
theorem C3_reflect_always_invoked_and_errors_joined (r : ChildSetReconciler α CT)
    (resource : Resource α) (listed : Except RError (List CT))
    (converge : String → Option CT → Option CT × Option RError)
    (known : List CT) (unit : ComposedUnit CT) (idf : CT → String)
    (refl : Resource α → ChildSetResult CT → Option RError)
    (hidf : r.identifyChild = some idf)
    (hrefl : r.effectiveReflect = some refl)
    (hknown : r.knownChildren resource listed = .ok known)
    (hcomp : r.composeChildReconcilers resource known = .ok (.ok unit)) :
    ∃ o, r.Reconcile resource listed converge = .ok o ∧
      o.reflected =
        some (ChildSetResult.mk (passRun r idf known converge unit).2.stash) ∧
      o.err = errJoin (passRun r idf known converge unit).1.2
        (refl resource
          (ChildSetResult.mk (passRun r idf known converge unit).2.stash)) ∧
      (∀ e, (passRun r idf known converge unit).1.2 = some e →
        optErrContains o.err e = true) ∧
      (∀ e, refl resource
          (ChildSetResult.mk (passRun r idf known converge unit).2.stash) = some e →
        optErrContains o.err e = true) ∧
      ((passRun r idf known converge unit).1.2 = none ∧
        refl resource
          (ChildSetResult.mk (passRun r idf known converge unit).2.stash) = none →
        o.err = none) := by
  refine ⟨_, Reconcile_char r resource listed converge known unit idf refl
    hidf hrefl hknown hcomp, rfl, rfl, ?_, ?_, ?_⟩
  · intro e he
    rw [he]
    exact errJoin_contains_left e _
  · intro e he
    rw [he]
    exact errJoin_contains_right _ e
  · rintro ⟨h1, h2⟩
    rw [h1, h2]
    rfl

/-- C3 witness. -/
theorem C3_witness :
    ∃ o, sampleCSR.Reconcile sampleLive (.ok []) sampleConvergeOk = .ok o ∧
      o.reflected = some (ChildSetResult.mk
        (passRun sampleCSR (fun c => c) [] sampleConvergeOk
          (ComposedUnit.seq
            [ChildRec.mk "a" (some "a") none, ChildRec.mk "b" (some "b") none])).2.stash) ∧
      o.err = errJoin
        (passRun sampleCSR (fun c => c) [] sampleConvergeOk
          (ComposedUnit.seq
            [ChildRec.mk "a" (some "a") none, ChildRec.mk "b" (some "b") none])).1.2
        (none : Option RError) ∧
      (∀ e, (passRun sampleCSR (fun c => c) [] sampleConvergeOk
          (ComposedUnit.seq
            [ChildRec.mk "a" (some "a") none,
              ChildRec.mk "b" (some "b") none])).1.2 = some e →
        optErrContains o.err e = true) ∧
      (∀ e : RError, (none : Option RError) = some e →
        optErrContains o.err e = true) ∧
      ((passRun sampleCSR (fun c => c) [] sampleConvergeOk
          (ComposedUnit.seq
            [ChildRec.mk "a" (some "a") none,
              ChildRec.mk "b" (some "b") none])).1.2 = none ∧
        (none : Option RError) = none →
        o.err = none) :=
  C3_reflect_always_invoked_and_errors_joined sampleCSR sampleLive (.ok [])
    sampleConvergeOk [] (ComposedUnit.seq
      [ChildRec.mk "a" (some "a") none, ChildRec.mk "b" (some "b") none])
    (fun c => c) (fun _ _ => none) rfl rfl rfl rfl

/-- C4: when DesiredChildren returns a child with an empty identity or two
children mapping to the same identity, `ChildSetReconciler.Reconcile`
returns a non-nil error before any per-child reconciler is executed: the
execution trace is empty (no child is created, updated or deleted) and
status reflection is not reached. -/
theorem C4_invalid_identities_abort (r : ChildSetReconciler α CT)
    (resource : Resource α) (listed : Except RError (List CT))
    (converge : String → Option CT → Option CT × Option RError)
    (known : List CT) (dc : Resource α → List CT × Option RError)
    (idf : CT → String) (children : List CT)
    (hdc : r.desiredChildren = some dc) (hidf : r.identifyChild = some idf)
    (hknown : r.knownChildren resource listed = .ok known)
    (hres : dc resource = (children, none))
    (hbad : (∃ c ∈ children, idf c = "") ∨ ¬(children.map idf).Nodup) :
    ∃ o, r.Reconcile resource listed converge = .ok o ∧
      o.err.isSome = true ∧ o.trace = [] ∧ o.reflected = none := by
  obtain ⟨e, hcomp⟩ := compose_fails r resource known dc idf children none
    hdc hidf hres (fun e2 h => by cases h) hbad
  exact ⟨_, Reconcile_compose_error r resource listed converge known e hknown hcomp,
    rfl, rfl, rfl⟩

/-- C4 witness: duplicate desired identity "a". -/
theorem C4_witness :
    ∃ o, sampleCSRDup.Reconcile sampleLive (.ok []) sampleConvergeOk = .ok o ∧
      o.err.isSome = true ∧ o.trace = [] ∧ o.reflected = none :=
  C4_invalid_identities_abort sampleCSRDup sampleLive (.ok []) sampleConvergeOk
    [] (fun _ => (["a", "a"], none)) (fun c => c) ["a", "a"]
    rfl rfl rfl rfl (Or.inr (by decide))

/-- C9: a non-empty Finalizer implies SkipOwnerReference is set to true
during Validate; a passing Validate implies DesiredChildren, a
status-reflection callback, IdentifyChild and ChildObjectManager are
present, and additionally OurChild and ListOptions whenever
SkipOwnerReference is (or is forced) true; and with a Finalizer configured
every successfully composed unit is wrapped in a WithFinalizer guard. -/
theorem C9_childset_validate (r : ChildSetReconciler α CT) :
    (r.finalizer ≠ "" → (ChildSetReconciler.Validate r).1.skipOwnerReference = true) ∧
    ((ChildSetReconciler.Validate r).2 = none →
      r.desiredChildren.isSome = true ∧
      (r.reflectChildrenStatusOnParent = true ∨
        r.reflectChildrenStatusOnParentWithError.isSome = true) ∧
      r.identifyChild.isSome = true ∧ r.childObjectManager = true ∧
      ((r.skipOwnerReference = true ∨ r.finalizer ≠ "") →
        r.ourChild.isSome = true ∧ r.listOptions = true)) ∧
    (∀ (resource : Resource α) (known : List CT) (unit : ComposedUnit CT),
      r.finalizer ≠ "" →
      r.composeChildReconcilers resource known = Outcome.ok (.ok unit) →
      ∃ crs, unit = ComposedUnit.withFinalizer r.finalizer crs) := by
  refine ⟨?_, ?_, ?_⟩
  · intro hf
    have hfb : (r.finalizer != "") = true := by simpa using hf
    simp [ChildSetReconciler.Validate, hfb]
  · intro hok
    by_cases hf : r.finalizer = ""
    · have hfb : (r.finalizer != "") = false := by simp [hf]
      simp only [ChildSetReconciler.Validate, hfb, Bool.false_eq_true, if_neg,
        not_false_iff] at hok
      by_cases h1 : r.desiredChildren.isNone = true
      · simp [h1] at hok
      · by_cases h2 : (!r.reflectChildrenStatusOnParent &&
            r.reflectChildrenStatusOnParentWithError.isNone) = true
        · simp [h1, h2] at hok
        · by_cases h3 : (r.ourChild.isNone && r.skipOwnerReference) = true
          · simp [h1, h2, h3] at hok
          · by_cases h4 : (!r.listOptions && r.skipOwnerReference) = true
            · simp [h1, h2, h3, h4] at hok
            · by_cases h5 : r.identifyChild.isNone = true
              · simp [h1, h2, h3, h4, h5] at hok
              · by_cases h6 : (!r.childObjectManager) = true
                · simp [h1, h2, h3, h4, h5, h6] at hok
                · refine ⟨by rw [Option.isSome_iff_ne_none]; simpa using h1, ?_,
                    by rw [Option.isSome_iff_ne_none]; simpa using h5,
                    by simpa using h6, ?_⟩
                  · rcases Bool.not_eq_true _ ▸ h2 with h2f
                    by_cases hp : r.reflectChildrenStatusOnParent = true
                    · exact Or.inl hp
                    · refine Or.inr ?_
                      simp only [Bool.and_eq_true, Bool.not_eq_true'] at h2
                      rcases Bool.eq_false_iff.mpr hp with hpf
                      by_contra hw
                      apply h2
                      constructor
                      · simp [Bool.not_eq_true] at hp
                        simp [hp]
                      · simpa using hw
                  · intro hskip
                    rcases hskip with hs | hs
                    · constructor
                      · by_contra hoc
                        apply h3
                        simp only [Bool.and_eq_true]
                        exact ⟨by simpa using hoc, hs⟩
                      · by_contra hlo
                        apply h4
                        simp only [Bool.and_eq_true]
                        refine ⟨?_, hs⟩
                        simp [Bool.not_eq_true] at hlo ⊢
                        simpa using hlo
                    · exact absurd hf hs
    · have hfb : (r.finalizer != "") = true := by simpa using hf
      simp only [ChildSetReconciler.Validate, hfb, if_pos] at hok
      by_cases h1 : r.desiredChildren.isNone = true
      · simp [h1] at hok
      · by_cases h2 : (!r.reflectChildrenStatusOnParent &&
            r.reflectChildrenStatusOnParentWithError.isNone) = true
        · simp [h1, h2] at hok
        · by_cases h3 : r.ourChild.isNone = true
          · simp [h1, h2, h3] at hok
          · by_cases h4 : (!r.listOptions) = true
            · simp [h1, h2, h3, h4] at hok
            · by_cases h5 : r.identifyChild.isNone = true
              · simp [h1, h2, h3, h4, h5] at hok
              · by_cases h6 : (!r.childObjectManager) = true
                · simp [h1, h2, h3, h4, h5, h6] at hok
                · refine ⟨by rw [Option.isSome_iff_ne_none]; simpa using h1, ?_,
                    by rw [Option.isSome_iff_ne_none]; simpa using h5,
                    by simpa using h6, ?_⟩
                  · by_cases hp : r.reflectChildrenStatusOnParent = true
                    · exact Or.inl hp
                    · refine Or.inr ?_
                      simp only [Bool.and_eq_true, Bool.not_eq_true'] at h2
                      by_contra hw
                      apply h2
                      constructor
                      · simp [Bool.not_eq_true] at hp
                        simp [hp]
                      · simpa using hw
                  · intro _
                    refine ⟨?_, by simpa using h4⟩
                    rw [Option.isSome_iff_ne_none]
                    simpa using h3
  · intro resource known unit hf hcomp
    have hfb : (r.finalizer != "") = true := by simpa using hf
    cases hdc : r.desiredChildren with
    | none => simp [ChildSetReconciler.composeChildReconcilers, hdc] at hcomp
    | some dc =>
      cases hidf : r.identifyChild with
      | none => simp [ChildSetReconciler.composeChildReconcilers, hdc, hidf] at hcomp
      | some idf =>
        rcases hres : dc resource with ⟨children, derr⟩
        simp only [ChildSetReconciler.composeChildReconcilers, hdc, hidf, hres] at hcomp
        cases hb : buildDesiredIndex idf children [] [] with
        | error e =>
          cases derr with
          | none =>
            simp [hb] at hcomp
          | some e2 =>
            by_cases hs : e2.isOnlyStatus = true
            · simp [hs, hb] at hcomp
            · simp [hs] at hcomp
        | ok p =>
          cases derr with
          | none =>
            rcases p with ⟨ids, byId⟩
            simp only [hb, hfb, if_pos, Outcome.ok.injEq, Except.ok.injEq] at hcomp
            exact ⟨_, hcomp.symm⟩
          | some e2 =>
            by_cases hs : e2.isOnlyStatus = true
            · rcases p with ⟨ids, byId⟩
              simp only [hs, if_pos, hb, hfb, Outcome.ok.injEq, Except.ok.injEq] at hcomp
              exact ⟨_, hcomp.symm⟩
            · simp [hs] at hcomp

/-- C9 witness. -/
theorem C9_witness :
    (ChildSetReconciler.Validate sampleCSRFull).1.skipOwnerReference = true ∧
    (sampleCSRFull.desiredChildren.isSome = true ∧
      (sampleCSRFull.reflectChildrenStatusOnParent = true ∨
        sampleCSRFull.reflectChildrenStatusOnParentWithError.isSome = true) ∧
      sampleCSRFull.identifyChild.isSome = true ∧
      sampleCSRFull.childObjectManager = true ∧
      ((sampleCSRFull.skipOwnerReference = true ∨ sampleCSRFull.finalizer ≠ "") →
        sampleCSRFull.ourChild.isSome = true ∧ sampleCSRFull.listOptions = true)) ∧
    (∃ crs, ComposedUnit.withFinalizer "example.com/child-set"
        [ChildRec.mk "a" (some "a") none] =
      ComposedUnit.withFinalizer sampleCSRFull.finalizer crs) := by
  refine ⟨?_, ?_, ?_⟩
  · exact (C9_childset_validate sampleCSRFull).1 (by decide)
  · exact (C9_childset_validate sampleCSRFull).2.1 rfl
  · exact (C9_childset_validate sampleCSRFull).2.2 sampleLive []
      (ComposedUnit.withFinalizer "example.com/child-set"
        [ChildRec.mk "a" (some "a") none])
      (by decide) rfl

/-- C7: a DesiredChildren error matching the OnlyReconcileChildStatus
sentinel does not abort the pass: one per-identity reconciler is still built
per known child, each carrying the sentinel as its desired-child error (so
create/update/delete are skipped), and status reflection is still invoked;
any non-sentinel DesiredChildren error aborts the whole pass and is
returned. -/
theorem C7_sentinel_status_only (r : ChildSetReconciler α CT)
    (resource : Resource α) (listed : Except RError (List CT))
    (converge : String → Option CT → Option CT × Option RError)
    (known : List CT) (dc : Resource α → List CT × Option RError)
    (idf : CT → String) (refl : Resource α → ChildSetResult CT → Option RError)
    (e : RError)
    (hdc : r.desiredChildren = some dc) (hidf : r.identifyChild = some idf)
    (hrefl : r.effectiveReflect = some refl)
    (hknown : r.knownChildren resource listed = .ok known)
    (hres : dc resource = ([], some e)) :
    (e.isOnlyStatus = true →
      ∃ unit o, r.composeChildReconcilers resource known = .ok (.ok unit) ∧
        (∀ cr ∈ unit.crs, cr.desiredErr = some e) ∧
        (unit.crs.map fun cr => cr.id).Nodup ∧
        (∀ c ∈ known, idf c ∈ unit.crs.map fun cr => cr.id) ∧
        (∀ i ∈ unit.crs.map fun cr => cr.id, i ∈ known.map idf) ∧
        r.Reconcile resource listed converge = .ok o ∧
        o.reflected.isSome = true) ∧
    (e.isOnlyStatus = false →
      r.Reconcile resource listed converge =
        .ok { result := {}, err := some e, reflected := none, trace := [] }) := by
  constructor
  · intro hs
    obtain ⟨unit, hcomp, hcrs, -⟩ :=
      compose_ok_char r resource known dc idf [] (some e) hdc hidf hres
        (fun e2 h => by cases h; exact hs)
        (fun c hc => absurd hc (List.not_mem_nil c)) (by simp)
    have hids : unit.crs.map (fun cr => cr.id) = unionIds idf [] known := by
      rw [hcrs, List.map_map]
      have hcompid : ((fun cr : ChildRec CT => cr.id) ∘ fun id =>
          ChildRec.mk id (lookupAssoc (List.map (fun c => (idf c, c)) []) id) (some e)) =
          fun id => id := by
        funext i
        rfl
      rw [hcompid]
      simp
    refine ⟨unit, _, hcomp, ?_, ?_, ?_, ?_,
      Reconcile_char r resource listed converge known unit idf refl
        hidf hrefl hknown hcomp, rfl⟩
    · intro cr hcr
      rw [hcrs] at hcr
      obtain ⟨i, hi, rfl⟩ := List.mem_map.mp hcr
      rfl
    · rw [hids]
      exact nodup_setSortedList _ (nodup_insertAll _ _ List.nodup_nil)
    · intro c hc
      rw [hids]
      unfold unionIds
      rw [mem_setSortedList, mem_insertAll]
      exact Or.inr (List.mem_map_of_mem idf hc)
    · intro i hi
      rw [hids] at hi
      unfold unionIds at hi
      rw [mem_setSortedList, mem_insertAll] at hi
      rcases hi with hi | hi
      · simp at hi
      · exact hi
  · intro hns
    exact Reconcile_compose_error r resource listed converge known e hknown
      (compose_aborts r resource known dc idf [] e hdc hidf hres hns)

/-- C7 witness: the sentinel with one known child "k". -/
theorem C7_witness :
    ((RError.onlyReconcileChildStatus).isOnlyStatus = true →
      ∃ unit o, sampleCSRSentinel.composeChildReconcilers sampleLive ["k"] =
          .ok (.ok unit) ∧
        (∀ cr ∈ unit.crs, cr.desiredErr = some RError.onlyReconcileChildStatus) ∧
        (unit.crs.map fun cr => cr.id).Nodup ∧
        (∀ c ∈ ["k"], (fun c => c) c ∈ unit.crs.map fun cr => cr.id) ∧
        (∀ i ∈ unit.crs.map fun cr => cr.id, i ∈ ["k"].map fun c => c) ∧
        sampleCSRSentinel.Reconcile sampleLive (.ok ["k"]) sampleConvergeOk = .ok o ∧
        o.reflected.isSome = true) ∧
    ((RError.onlyReconcileChildStatus).isOnlyStatus = false →
      sampleCSRSentinel.Reconcile sampleLive (.ok ["k"]) sampleConvergeOk =
        .ok { result := {}, err := some RError.onlyReconcileChildStatus
              reflected := none, trace := [] }) :=
  C7_sentinel_status_only sampleCSRSentinel sampleLive (.ok ["k"]) sampleConvergeOk
    ["k"] (fun _ => ([], some RError.onlyReconcileChildStatus)) (fun c => c)
    (fun _ _ => none) RError.onlyReconcileChildStatus rfl rfl rfl rfl rfl

/-- C1 (amended): when listing succeeds and DesiredChildren returns children
with non-empty pairwise-unique identities, the composed unit contains
exactly one per-identity reconciler for each identity in the union of known
and desired identities, in ascending sorted order; execution processes a
front segment of that order (ascending, each identity at most once), and
every identity exactly once when no per-child unit aborts the fail-fast
sequence. -/
theorem C1_union_sorted_each_at_most_once (r : ChildSetReconciler α CT)
    (resource : Resource α) (listed : Except RError (List CT))
    (converge : String → Option CT → Option CT × Option RError)
    (known : List CT) (dc : Resource α → List CT × Option RError)
    (idf : CT → String) (refl : Resource α → ChildSetResult CT → Option RError)
    (children : List CT)
    (hdc : r.desiredChildren = some dc) (hidf : r.identifyChild = some idf)
    (hrefl : r.effectiveReflect = some refl)
    (hknown : r.knownChildren resource listed = .ok known)
    (hres : dc resource = (children, none))
    (hne : ∀ c ∈ children, idf c ≠ "") (hnd : (children.map idf).Nodup) :
    ∃ unit o, r.composeChildReconcilers resource known = .ok (.ok unit) ∧
      r.Reconcile resource listed converge = .ok o ∧
      unit.crs.map (fun cr => cr.id) = unionIds idf children known ∧
      (∀ i, i ∈ unionIds idf children known ↔
        (i ∈ children.map idf ∨ i ∈ known.map idf)) ∧
      (unionIds idf children known).Nodup ∧
      (unionIds idf children known).Sorted idLe ∧
      (∃ rest, o.trace ++ rest = unionIds idf children known) ∧
      ((passRun r idf known converge unit).1.2 = none →
        o.trace = unionIds idf children known) := by
  obtain ⟨unit, hcomp, hcrs, -⟩ :=
    compose_ok_char r resource known dc idf children none hdc hidf hres
      (fun e2 h => by cases h) hne hnd
  have hids : unit.crs.map (fun cr => cr.id) = unionIds idf children known := by
    rw [hcrs, List.map_map]
    have hcompid : ((fun cr : ChildRec CT => cr.id) ∘ fun id =>
        ChildRec.mk id (lookupAssoc (List.map (fun c => (idf c, c)) children) id) none) =
        fun id => id := by
      funext i
      rfl
    rw [hcompid]
    simp
  obtain ⟨t, u, h1, h2, h3⟩ := sequenceRun_trace
    (childStep (effectiveReflectedReasons r.reflectedChildErrorReasons) converge
      (actualOf idf known))
    (childStep_trace _ _ _) unit.crs {} {}
  have ht : (passRun r idf known converge unit).2.trace = t := by
    simpa [passRun] using h1
  rw [hids] at h2
  refine ⟨unit, _, hcomp,
    Reconcile_char r resource listed converge known unit idf refl
      hidf hrefl hknown hcomp,
    hids, ?_, ?_, ?_, ?_, ?_⟩
  · intro i
    unfold unionIds
    rw [mem_setSortedList, mem_insertAll]
  · exact nodup_setSortedList _ (nodup_insertAll _ _ hnd)
  · exact sorted_setSortedList _
  · exact ⟨u, by rw [ht]; exact h2⟩
  · intro herr
    have := h3 (by simpa [passRun] using herr)
    rw [ht, this, hids]

/-- C1 counterexample: with desired children "a" and "b" (non-empty,
pairwise-unique identities) and a successful listing, a transient
(non-reflected) store error while converging "a" stops the fail-fast
sequence, so identity "b" — a member of the union — is never processed in
that pass, refuting "each identity processed exactly once". -/
theorem C1_counterexample :
    sampleCSR.Reconcile sampleLive (.ok []) sampleConvergeAbort =
      .ok { result := {}, err := some (RError.store "InternalError" "boom")
            reflected := some (ChildSetResult.mk []), trace := ["a"] } ∧
    "b" ∈ unionIds (fun c => c) ["a", "b"] [] ∧
    "b" ∉ (["a"] : List String) := by
  refine ⟨rfl, ?_, ?_⟩ <;> decide

/-- C1 witness: with a convergence oracle that always succeeds, the trace
processes the full sorted union. -/
theorem C1_witness :
    ∃ unit o, sampleCSR.composeChildReconcilers sampleLive [] = .ok (.ok unit) ∧
      sampleCSR.Reconcile sampleLive (.ok []) sampleConvergeOk = .ok o ∧
      unit.crs.map (fun cr => cr.id) = unionIds (fun c => c) ["a", "b"] [] ∧
      (∀ i, i ∈ unionIds (fun c => c) ["a", "b"] [] ↔
        (i ∈ ["a", "b"].map (fun c => c) ∨ i ∈ ([] : List String).map (fun c => c))) ∧
      (unionIds (fun c => c) ["a", "b"] []).Nodup ∧
      (unionIds (fun c => c) ["a", "b"] []).Sorted idLe ∧
      (∃ rest, o.trace ++ rest = unionIds (fun c => c) ["a", "b"] []) ∧
      ((passRun sampleCSR (fun c => c) [] sampleConvergeOk unit).1.2 = none →
        o.trace = unionIds (fun c => c) ["a", "b"] []) :=
  C1_union_sorted_each_at_most_once sampleCSR sampleLive (.ok []) sampleConvergeOk
    [] (fun _ => (["a", "b"], none)) (fun c => c) (fun _ _ => none) ["a", "b"]
    rfl rfl rfl rfl rfl (by decide) (by decide)

/-- C2: during child convergence, a store error whose reason is in the
effective reflected-reason list (default: AlreadyExists, Forbidden,
Invalid) is captured in that child's entry of the ChildSetResult handed to
the status-reflection callback and does not abort the pass (the per-child
unit returns no error, so the fail-fast sequence continues), while a store
error with any other reason is returned from Reconcile so the pass can be
retried. -/
theorem C2_reflected_error_filtering (r : ChildSetReconciler α CT)
    (resource : Resource α) (listed : Except RError (List CT))
    (converge : String → Option CT → Option CT × Option RError)
    (known : List CT) (unit : ComposedUnit CT) (idf : CT → String)
    (refl : Resource α → ChildSetResult CT → Option RError)
    (l1 l2 : List (ChildRec CT)) (cr : ChildRec CT) (c : Option CT) (e : RError)
    (acc1 : Result) (s1 : PassState CT)
    (hidf : r.identifyChild = some idf)
    (hrefl : r.effectiveReflect = some refl)
    (hknown : r.knownChildren resource listed = .ok known)
    (hcomp : r.composeChildReconcilers resource known = .ok (.ok unit))
    (hsplit : unit.crs = l1 ++ cr :: l2)
    (hderr : cr.desiredErr = none)
    (hconv : converge cr.id cr.desired = (c, some e))
    (hrun1 : sequenceRun
        (childStep (effectiveReflectedReasons r.reflectedChildErrorReasons)
          converge (actualOf idf known)) l1 {} {} = ((acc1, none), s1)) :
    ∃ o, r.Reconcile resource listed converge = .ok o ∧
      (e.reason ∈ effectiveReflectedReasons r.reflectedChildErrorReasons →
        (childStep (effectiveReflectedReasons r.reflectedChildErrorReasons)
            converge (actualOf idf known) cr s1).1.2 = none ∧
        ∃ res, o.reflected = some res ∧
          ChildSetPartialResult.mk cr.id c (some e) ∈ res.children) ∧
      (e.reason ∉ effectiveReflectedReasons r.reflectedChildErrorReasons →
        (passRun r idf known converge unit).1.2 = some e ∧
        optErrContains o.err e = true) := by
  refine ⟨_, Reconcile_char r resource listed converge known unit idf refl
    hidf hrefl hknown hcomp, ?_, ?_⟩
  · intro hmem
    have hstep := childStep_reflected
      (effectiveReflectedReasons r.reflectedChildErrorReasons) converge
      (actualOf idf known) cr s1 c e hderr hconv hmem
    have hrunfull : passRun r idf known converge unit =
        sequenceRun (childStep (effectiveReflectedReasons r.reflectedChildErrorReasons)
          converge (actualOf idf known)) l2 (AggregateResults acc1 {})
          (appendEntry { s1 with trace := s1.trace ++ [cr.id] } cr.id c (some e)) := by
      unfold passRun
      rw [hsplit, sequenceRun_append_ok _ l1 (cr :: l2) {} {} acc1 s1 hrun1,
        sequenceRun_cons, hstep]
    refine ⟨by rw [hstep], ?_⟩
    obtain ⟨t2, ht2⟩ := sequenceRun_stash
      (childStep (effectiveReflectedReasons r.reflectedChildErrorReasons) converge
        (actualOf idf known))
      (childStep_stash _ _ _) l2 (AggregateResults acc1 {})
      (appendEntry { s1 with trace := s1.trace ++ [cr.id] } cr.id c (some e))
    refine ⟨ChildSetResult.mk ((passRun r idf known converge unit).2.stash), rfl, ?_⟩
    show ChildSetPartialResult.mk cr.id c (some e) ∈
      (passRun r idf known converge unit).2.stash
    rw [hrunfull, ht2]
    simp [appendEntry]
  · intro hmem
    have hstep := childStep_transient
      (effectiveReflectedReasons r.reflectedChildErrorReasons) converge
      (actualOf idf known) cr s1 c e hderr hconv hmem
    have hrunfull : passRun r idf known converge unit =
        ((AggregateResults acc1 {}, some e),
          { s1 with trace := s1.trace ++ [cr.id] }) := by
      unfold passRun
      rw [hsplit, sequenceRun_append_ok _ l1 (cr :: l2) {} {} acc1 s1 hrun1,
        sequenceRun_cons, hstep]
    refine ⟨by rw [hrunfull], ?_⟩
    show optErrContains (errJoin (passRun r idf known converge unit).1.2
      (refl resource (ChildSetResult.mk (passRun r idf known converge unit).2.stash)))
      e = true
    rw [hrunfull]
    exact errJoin_contains_left e _

/-- C2 witness: child "a" fails with reason Invalid (in the default
reflected list). -/
theorem C2_witness :
    ∃ o, sampleCSR.Reconcile sampleLive (.ok []) sampleConvergeInvalid = .ok o ∧
      ((RError.store "Invalid" "bad").reason ∈
          effectiveReflectedReasons sampleCSR.reflectedChildErrorReasons →
        (childStep (effectiveReflectedReasons sampleCSR.reflectedChildErrorReasons)
            sampleConvergeInvalid (actualOf (fun c => c) [])
            (ChildRec.mk "a" (some "a") none) {}).1.2 = none ∧
        ∃ res, o.reflected = some res ∧
          ChildSetPartialResult.mk "a" (some "a")
            (some (RError.store "Invalid" "bad")) ∈ res.children) ∧
      ((RError.store "Invalid" "bad").reason ∉
          effectiveReflectedReasons sampleCSR.reflectedChildErrorReasons →
        (passRun sampleCSR (fun c => c) [] sampleConvergeInvalid
          (ComposedUnit.seq [ChildRec.mk "a" (some "a") none,
            ChildRec.mk "b" (some "b") none])).1.2 =
          some (RError.store "Invalid" "bad") ∧
        optErrContains o.err (RError.store "Invalid" "bad") = true) :=
  C2_reflected_error_filtering sampleCSR sampleLive (.ok []) sampleConvergeInvalid
    [] (ComposedUnit.seq [ChildRec.mk "a" (some "a") none,
      ChildRec.mk "b" (some "b") none])
    (fun c => c) (fun _ _ => none)
    [] [ChildRec.mk "b" (some "b") none] (ChildRec.mk "a" (some "a") none)
    (some "a") (RError.store "Invalid" "bad") {} {}
    rfl rfl rfl rfl rfl rfl rfl rfl

theorem GetCondition_append (l1 l2 : List Condition) (t : String) :
    GetCondition (l1 ++ l2) t =
      ((GetCondition l1 t).or (GetCondition l2 t)) := by
  unfold GetCondition
  exact List.find?_append

theorem GetCondition_map_set_ne (conds : List Condition) (c : Condition)
    (ltt : Nat) (t : String) (hne : t ≠ c.type) :
    GetCondition (conds.map fun x =>
        if x.type = c.type then { c with lastTransitionTime := ltt } else x) t =
      GetCondition conds t := by
  unfold GetCondition
  induction conds with
  | nil => simp
  | cons x xs ih =>
    by_cases hx : x.type = c.type
    · simp only [List.map_cons, hx, if_pos]
      rw [List.find?_cons_of_neg _ (by simp; exact fun h => hne h.symm),
        List.find?_cons_of_neg _ (by simp [hx]; exact fun h => hne h.symm)]
      exact ih
    · simp only [List.map_cons, if_neg hx]
      by_cases hxt : x.type = t
      · rw [List.find?_cons_of_pos _ (by simp [hxt]),
          List.find?_cons_of_pos _ (by simp [hxt])]
      · rw [List.find?_cons_of_neg _ (by simp [hxt]),
          List.find?_cons_of_neg _ (by simp [hxt])]
        exact ih

theorem GetCondition_map_set_eq (conds : List Condition) (c : Condition)
    (ltt : Nat) (hsome : (GetCondition conds c.type).isSome = true) :
    GetCondition (conds.map fun x =>
        if x.type = c.type then { c with lastTransitionTime := ltt } else x) c.type =
      some { c with lastTransitionTime := ltt } := by
  unfold GetCondition at hsome ⊢
  induction conds with
  | nil => simp at hsome
  | cons x xs ih =>
    by_cases hx : x.type = c.type
    · simp only [List.map_cons, hx, if_pos]
      rw [List.find?_cons_of_pos _ (by simp)]
    · simp only [List.map_cons, if_neg hx]
      rw [List.find?_cons_of_neg _ (by simp [hx])]
      rw [List.find?_cons_of_neg _ (by simp [hx])] at hsome
      exact ih hsome

theorem statusOf_setCondition_self (conds : List Condition) (c : Condition)
    (now : Nat) :
    statusOf (setCondition conds c now) c.type = c.status := by
  unfold setCondition
  cases hg : GetCondition conds c.type with
  | none =>
    unfold statusOf
    rw [GetCondition_append, hg]
    simp [GetCondition]
  | some old =>
    unfold statusOf
    rw [GetCondition_map_set_eq conds _ _ (by simp [hg])]

theorem statusOf_setCondition_ne (conds : List Condition) (c : Condition)
    (now : Nat) (t : String) (hne : t ≠ c.type) :
    statusOf (setCondition conds c now) t = statusOf conds t := by
  unfold setCondition
  cases hg : GetCondition conds c.type with
  | none =>
    unfold statusOf
    rw [GetCondition_append]
    cases hgt : GetCondition conds t with
    | some x => simp
    | none => simp [GetCondition, Ne.symm hne]
  | some old =>
    unfold statusOf
    rw [GetCondition_map_set_ne conds _ _ t hne]

theorem statusOf_recompute_happy (cs : ConditionSet) (conds : List Condition)
    (now : Nat) :
    statusOf (recomputeHappiness cs now conds) cs.happy =
      dependentsStatus cs conds := by
  unfold recomputeHappiness dependentsStatus
  cases hf : cs.dependents.find?
      (fun d => statusOf conds d = ConditionStatus.isFalse) with
  | some d =>
    exact statusOf_setCondition_self conds _ now
  | none =>
    by_cases hall : cs.dependents.all
        (fun d => statusOf conds d = ConditionStatus.isTrue) = true
    · simp only [hall, if_pos]
      exact statusOf_setCondition_self conds _ now
    · simp only [hall, Bool.false_eq_true, if_neg, not_false_iff]
      exact statusOf_setCondition_self conds _ now

theorem statusOf_recompute_other (cs : ConditionSet) (conds : List Condition)
    (now : Nat) (d : String) (hd : d ≠ cs.happy) :
    statusOf (recomputeHappiness cs now conds) d = statusOf conds d := by
  unfold recomputeHappiness
  cases hf : cs.dependents.find?
      (fun x => statusOf conds x = ConditionStatus.isFalse) with
  | some x =>
    exact statusOf_setCondition_ne conds _ now d hd
  | none =>
    by_cases hall : cs.dependents.all
        (fun x => statusOf conds x = ConditionStatus.isTrue) = true
    · simp only [hall, if_pos]
      exact statusOf_setCondition_ne conds _ now d hd
    · simp only [hall, Bool.false_eq_true, if_neg, not_false_iff]
      exact statusOf_setCondition_ne conds _ now d hd

theorem dependentsStatus_isTrue_iff (cs : ConditionSet) (conds : List Condition) :
    dependentsStatus cs conds = ConditionStatus.isTrue ↔
      ∀ d ∈ cs.dependents, statusOf conds d = ConditionStatus.isTrue := by
  unfold dependentsStatus
  cases hf : cs.dependents.find?
      (fun d => statusOf conds d = ConditionStatus.isFalse) with
  | some d =>
    have hdf : statusOf conds d = ConditionStatus.isFalse := by
      have := List.find?_some hf
      simpa using this
    have hdm : d ∈ cs.dependents := List.mem_of_find?_eq_some hf
    constructor
    · intro h
      cases h
    · intro h
      rw [h d hdm] at hdf
      cases hdf
  | none =>
    by_cases hall : cs.dependents.all
        (fun d => statusOf conds d = ConditionStatus.isTrue) = true
    · simp only [hall, if_pos]
      constructor
      · intro _ d hd
        have := List.all_eq_true.mp hall d hd
        simpa using this
      · intro _
        trivial
    · simp only [hall, Bool.false_eq_true, if_neg, not_false_iff]
      constructor
      · intro h
        cases h
      · intro h
        exfalso
        apply hall
        rw [List.all_eq_true]
        intro d hd
        simpa using h d hd

theorem dependentsStatus_isFalse_of (cs : ConditionSet) (conds : List Condition)
    (h : ∃ d ∈ cs.dependents, statusOf conds d = ConditionStatus.isFalse) :
    dependentsStatus cs conds = ConditionStatus.isFalse := by
  obtain ⟨d, hd, hs⟩ := h
  unfold dependentsStatus
  cases hf : cs.dependents.find?
      (fun x => statusOf conds x = ConditionStatus.isFalse) with
  | some x => rfl
  | none =>
    exfalso
    have := List.find?_eq_none.mp hf d hd
    simp [hs] at this

theorem dependentsStatus_isUnknown_of (cs : ConditionSet) (conds : List Condition)
    (h1 : ¬∀ d ∈ cs.dependents, statusOf conds d = ConditionStatus.isTrue)
    (h2 : ¬∃ d ∈ cs.dependents, statusOf conds d = ConditionStatus.isFalse) :
    dependentsStatus cs conds = ConditionStatus.isUnknown := by
  unfold dependentsStatus
  cases hf : cs.dependents.find?
      (fun x => statusOf conds x = ConditionStatus.isFalse) with
  | some x =>
    exfalso
    apply h2
    refine ⟨x, List.mem_of_find?_eq_some hf, ?_⟩
    have := List.find?_some hf
    simpa using this
  | none =>
    by_cases hall : cs.dependents.all
        (fun x => statusOf conds x = ConditionStatus.isTrue) = true
    · exfalso
      apply h1
      intro d hd
      have := List.all_eq_true.mp hall d hd
      simpa using this
    · simp only [hall, Bool.false_eq_true, if_neg, not_false_iff]

theorem aggregate_after_recompute (cs : ConditionSet) (conds2 : List Condition)
    (now : Nat) (hhd : cs.happy ∉ cs.dependents) :
    (statusOf (recomputeHappiness cs now conds2) cs.happy = ConditionStatus.isTrue ↔
      ∀ d ∈ cs.dependents,
        statusOf (recomputeHappiness cs now conds2) d = ConditionStatus.isTrue) ∧
    ((∃ d ∈ cs.dependents,
        statusOf (recomputeHappiness cs now conds2) d = ConditionStatus.isFalse) →
      statusOf (recomputeHappiness cs now conds2) cs.happy = ConditionStatus.isFalse) ∧
    ((¬∀ d ∈ cs.dependents,
        statusOf (recomputeHappiness cs now conds2) d = ConditionStatus.isTrue) ∧
      (¬∃ d ∈ cs.dependents,
        statusOf (recomputeHappiness cs now conds2) d = ConditionStatus.isFalse) →
      statusOf (recomputeHappiness cs now conds2) cs.happy = ConditionStatus.isUnknown) := by
  have hdep : ∀ d ∈ cs.dependents,
      statusOf (recomputeHappiness cs now conds2) d = statusOf conds2 d := by
    intro d hd
    exact statusOf_recompute_other cs conds2 now d (fun h => hhd (h ▸ hd))
  rw [statusOf_recompute_happy]
  refine ⟨?_, ?_, ?_⟩
  · rw [dependentsStatus_isTrue_iff]
    constructor
    · intro h d hd
      rw [hdep d hd]
      exact h d hd
    · intro h d hd
      rw [← hdep d hd]
      exact h d hd
  · rintro ⟨d, hd, hs⟩
    exact dependentsStatus_isFalse_of cs conds2 ⟨d, hd, by rw [← hdep d hd]; exact hs⟩
  · rintro ⟨h1, h2⟩
    refine dependentsStatus_isUnknown_of cs conds2 ?_ ?_
    · intro hall
      apply h1
      intro d hd
      rw [hdep d hd]
      exact hall d hd
    · rintro ⟨d, hd, hs⟩
      exact h2 ⟨d, hd, by rw [hdep d hd]; exact hs⟩

theorem initStep_preserve (now : Nat) (acc : List Condition) (t2 : String)
    (d : String) (c0 : Condition) (h : GetCondition acc d = some c0) :
    GetCondition (initStep now acc t2) d = some c0 := by
  unfold initStep
  cases hg : GetCondition acc t2 with
  | some _ => exact h
  | none =>
    simp only [setCondition, hg]
    rw [GetCondition_append, h]
    rfl

theorem initStep_absent_ne (now : Nat) (acc : List Condition) (t2 : String)
    (d : String) (hne : d ≠ t2) (h : GetCondition acc d = none) :
    GetCondition (initStep now acc t2) d = none := by
  unfold initStep
  cases hg : GetCondition acc t2 with
  | some _ => exact h
  | none =>
    simp only [setCondition, hg]
    rw [GetCondition_append, h]
    simp [GetCondition, Ne.symm hne]

theorem initStep_sets (now : Nat) (acc : List Condition) (t2 : String)
    (h : GetCondition acc t2 = none) :
    GetCondition (initStep now acc t2) t2 =
      some (Condition.mk t2 ConditionStatus.isUnknown "" "" now) := by
  unfold initStep
  rw [h]
  simp only [setCondition, h]
  rw [GetCondition_append, h]
  simp [GetCondition]

theorem initFold_preserve (now : Nat) :
    ∀ (ts : List String) (acc : List Condition) (d : String) (c0 : Condition),
      GetCondition acc d = some c0 →
      GetCondition (ts.foldl (initStep now) acc) d = some c0 := by
  intro ts
  induction ts with
  | nil => intro acc d c0 h; exact h
  | cons t2 rest ih =>
    intro acc d c0 h
    exact ih (initStep now acc t2) d c0 (initStep_preserve now acc t2 d c0 h)

theorem initFold_unknown (now : Nat) :
    ∀ (ts : List String) (acc : List Condition) (d : String),
      d ∈ ts → GetCondition acc d = none →
      statusOf (ts.foldl (initStep now) acc) d = ConditionStatus.isUnknown := by
  intro ts
  induction ts with
  | nil => intro acc d hmem; cases hmem
  | cons t2 rest ih =>
    intro acc d hmem h
    by_cases hdt : d = t2
    · subst hdt
      have hset := initStep_sets now acc d h
      have hfinal := initFold_preserve now rest (initStep now acc d) d _ hset
      unfold statusOf
      rw [List.foldl_cons, hfinal]
    · have hmem2 : d ∈ rest := by
        rcases List.mem_cons.mp hmem with h2 | h2
        · exact absurd h2 hdt
        · exact h2
      exact ih (initStep now acc t2) d hmem2 (initStep_absent_ne now acc t2 d hdt h)

/-- C5: after InitializeConditions every declared dependent and the
aggregate condition are Unknown when not already present (existing values
are not overwritten); after every MarkTrue/MarkFalse the aggregate is True
iff every declared dependent is True, False whenever some dependent is
False (regardless of the others), and Unknown otherwise; IsHappy is true
iff the aggregate condition's status is True. -/
theorem C5_condition_state_machine (cs : ConditionSet) (conds : List Condition)
    (now now2 : Nat) (t reason message : String)
    (hhd : cs.happy ∉ cs.dependents) :
    (∀ d ∈ cs.dependents ++ [cs.happy], GetCondition conds d = none →
      statusOf (InitializeConditions cs now conds) d = ConditionStatus.isUnknown) ∧
    (∀ d c0, GetCondition conds d = some c0 →
      GetCondition (InitializeConditions cs now conds) d = some c0) ∧
    ((statusOf (MarkTrue cs conds t reason message now2) cs.happy =
        ConditionStatus.isTrue ↔
      ∀ d ∈ cs.dependents,
        statusOf (MarkTrue cs conds t reason message now2) d =
          ConditionStatus.isTrue) ∧
      ((∃ d ∈ cs.dependents,
          statusOf (MarkTrue cs conds t reason message now2) d =
            ConditionStatus.isFalse) →
        statusOf (MarkTrue cs conds t reason message now2) cs.happy =
          ConditionStatus.isFalse) ∧
      ((¬∀ d ∈ cs.dependents,
          statusOf (MarkTrue cs conds t reason message now2) d =
            ConditionStatus.isTrue) ∧
        (¬∃ d ∈ cs.dependents,
          statusOf (MarkTrue cs conds t reason message now2) d =
            ConditionStatus.isFalse) →
        statusOf (MarkTrue cs conds t reason message now2) cs.happy =
          ConditionStatus.isUnknown)) ∧
    ((statusOf (MarkFalse cs conds t reason message now2) cs.happy =
        ConditionStatus.isTrue ↔
      ∀ d ∈ cs.dependents,
        statusOf (MarkFalse cs conds t reason message now2) d =
          ConditionStatus.isTrue) ∧
      ((∃ d ∈ cs.dependents,
          statusOf (MarkFalse cs conds t reason message now2) d =
            ConditionStatus.isFalse) →
        statusOf (MarkFalse cs conds t reason message now2) cs.happy =
          ConditionStatus.isFalse) ∧
      ((¬∀ d ∈ cs.dependents,
          statusOf (MarkFalse cs conds t reason message now2) d =
            ConditionStatus.isTrue) ∧
        (¬∃ d ∈ cs.dependents,
          statusOf (MarkFalse cs conds t reason message now2) d =
            ConditionStatus.isFalse) →
        statusOf (MarkFalse cs conds t reason message now2) cs.happy =
          ConditionStatus.isUnknown)) ∧
    (∀ cl : List Condition,
      IsHappy cs cl = true ↔ statusOf cl cs.happy = ConditionStatus.isTrue) := by
  refine ⟨?_, ?_, ?_, ?_, ?_⟩
  · intro d hd hnone
    exact initFold_unknown now _ conds d hd hnone
  · intro d c0 h
    exact initFold_preserve now _ conds d c0 h
  · exact aggregate_after_recompute cs _ now2 hhd
  · exact aggregate_after_recompute cs _ now2 hhd
  · intro cl
    simp [IsHappy]

/-- C5 witness: the test scenario's ConditionSet (Created, Configured →
Ready) on a fresh status. -/
theorem C5_witness :
    (∀ d ∈ sampleConditionSet.dependents ++ [sampleConditionSet.happy],
      GetCondition [] d = none →
      statusOf (InitializeConditions sampleConditionSet 5 []) d =
        ConditionStatus.isUnknown) ∧
    (∀ d c0, GetCondition [] d = some c0 →
      GetCondition (InitializeConditions sampleConditionSet 5 []) d = some c0) ∧
    ((statusOf (MarkTrue sampleConditionSet [] "Created" "r" "m" 7)
        sampleConditionSet.happy = ConditionStatus.isTrue ↔
      ∀ d ∈ sampleConditionSet.dependents,
        statusOf (MarkTrue sampleConditionSet [] "Created" "r" "m" 7) d =
          ConditionStatus.isTrue) ∧
      ((∃ d ∈ sampleConditionSet.dependents,
          statusOf (MarkTrue sampleConditionSet [] "Created" "r" "m" 7) d =
            ConditionStatus.isFalse) →
        statusOf (MarkTrue sampleConditionSet [] "Created" "r" "m" 7)
          sampleConditionSet.happy = ConditionStatus.isFalse) ∧
      ((¬∀ d ∈ sampleConditionSet.dependents,
          statusOf (MarkTrue sampleConditionSet [] "Created" "r" "m" 7) d =
            ConditionStatus.isTrue) ∧
        (¬∃ d ∈ sampleConditionSet.dependents,
          statusOf (MarkTrue sampleConditionSet [] "Created" "r" "m" 7) d =
            ConditionStatus.isFalse) →
        statusOf (MarkTrue sampleConditionSet [] "Created" "r" "m" 7)
          sampleConditionSet.happy = ConditionStatus.isUnknown)) ∧
    ((statusOf (MarkFalse sampleConditionSet [] "Created" "r" "m" 7)
        sampleConditionSet.happy = ConditionStatus.isTrue ↔
      ∀ d ∈ sampleConditionSet.dependents,
        statusOf (MarkFalse sampleConditionSet [] "Created" "r" "m" 7) d =
          ConditionStatus.isTrue) ∧
      ((∃ d ∈ sampleConditionSet.dependents,
          statusOf (MarkFalse sampleConditionSet [] "Created" "r" "m" 7) d =
            ConditionStatus.isFalse) →
        statusOf (MarkFalse sampleConditionSet [] "Created" "r" "m" 7)
          sampleConditionSet.happy = ConditionStatus.isFalse) ∧
      ((¬∀ d ∈ sampleConditionSet.dependents,
          statusOf (MarkFalse sampleConditionSet [] "Created" "r" "m" 7) d =
            ConditionStatus.isTrue) ∧
        (¬∃ d ∈ sampleConditionSet.dependents,
          statusOf (MarkFalse sampleConditionSet [] "Created" "r" "m" 7) d =
            ConditionStatus.isFalse) →
        statusOf (MarkFalse sampleConditionSet [] "Created" "r" "m" 7)
          sampleConditionSet.happy = ConditionStatus.isUnknown)) ∧
    (∀ cl : List Condition,
      IsHappy sampleConditionSet cl = true ↔
        statusOf cl sampleConditionSet.happy = ConditionStatus.isTrue) :=
  C5_condition_state_machine sampleConditionSet [] 5 7 "Created" "r" "m" (by decide)

/-- C6 witness: a live resource with a succeeding Sync callback. -/
theorem C6_witness :
    ∃ o, sampleSync.Reconcile sampleLive = .ok o ∧
      (("sync" ∈ o.phases) ↔
        (sampleLive.deletionTimestamp = none ∨
          sampleSync.syncDuringFinalization = true)) ∧
      (∀ e, (sampleLive.deletionTimestamp = none ∨
          sampleSync.syncDuringFinalization = true) →
        (none : Option RError) = some e →
        o.err = some e ∧ o.result = AggregateResults {} {} ∧
          o.phases = ["sync"] ∧
          o.logged = if e.isQuiet then [] else ["unable to sync"]) ∧
      (∀ t, sampleLive.deletionTimestamp = some t →
        (sampleSync.syncDuringFinalization = true →
            (none : Option RError) = none →
          o.phases = ["sync", "finalize"] ∧
            o.result = AggregateResults (AggregateResults {} {})
              (sampleSync.finalizeStep sampleLive).1 ∧
            o.err = (sampleSync.finalizeStep sampleLive).2 ∧
            o.logged = (match (sampleSync.finalizeStep sampleLive).2 with
              | some fe => if fe.isQuiet then [] else ["unable to finalize"]
              | none => [])) ∧
        (sampleSync.syncDuringFinalization = false →
          o.phases = ["finalize"] ∧
            o.result = AggregateResults {} (sampleSync.finalizeStep sampleLive).1 ∧
            o.err = (sampleSync.finalizeStep sampleLive).2 ∧
            o.logged = (match (sampleSync.finalizeStep sampleLive).2 with
              | some fe => if fe.isQuiet then [] else ["unable to finalize"]
              | none => []))) ∧
      (sampleLive.deletionTimestamp = none → (none : Option RError) = none →
        o.err = none ∧ o.phases = ["sync"] ∧
          o.result = AggregateResults {} {} ∧ o.logged = []) :=
  C6_SyncReconciler_Reconcile_flow sampleSync sampleLive {} none rfl
